import Mathlib

/-! UOCPlay subscriptions (`src/UOCPlay/src/subscription.c`)

A shallow embedding of the subscription collection of UOCPlay and proofs about
its operations.

Conventions of the embedding.

* C `int` values are `Int`; calendar fields and counters stay far away from the
  limits of a 32-bit `int`, so no wrap-around is modelled.
* A `char[N]` field is the `String` it holds up to its terminator.  The array
  type bounds the length by `N - 1`, so `strncpy (dst, src, N)` transfers the
  whole string and is the identity on values.
* A stored C `float` is the rational number it denotes (`price`, `rating`).
  Comparison `!=` is comparison of values; NaN is excluded (`subscription_parse`
  asserts `price >= 0`).
* Arithmetic on `float` and `double` is IEEE 754 arithmetic in binary32 and
  binary64: every operation is evaluated in the format of its type and its
  result is rounded to nearest, ties to even.  An intermediate value is an
  `Option ℚ`, `none` being an infinity or a NaN.
* A C array `elems`/`count` pair is a `List`; `count` is its length.
* A film stack is a linked list *and* a stored `count`; both are kept, since
  `subscription_cpy` sizes its buffer from `count` and walks the links.
* Undefined behaviour (an access outside a local buffer, a read of a slot that
  was never written, `strdup` of a `NULL` name) is `none`.
* A pointer that may be `NULL` is an `Option`, `none` being `NULL`; where a
  function can also be undefined its result is an `Option` of that `Option`, and
  `some none` is the defined answer `NULL`.
* `malloc` does not fail.
-/

namespace UOCPlay

/-! ## Data model -/

/-- Calendar date (`tDate` of `date.h`): the three fields read by
`calculate_vipLevel`. -/
structure tDate where
  day : Int
  month : Int
  year : Int
  deriving DecidableEq, Repr, Inhabited

/-- Film record: the fields copied one by one in `subscriptions_findByDocument`.
A `NULL` name is `none`. -/
structure tFilm where
  name : Option String
  duration : Int
  genre : Int
  release : tDate
  rating : ℚ
  isFree : Bool
  deriving DecidableEq, Inhabited

/-- Film stack: `top` is the chain of nodes from the top node downwards (the
`elem` of each node, `next` being the tail), `count` the stored counter. -/
structure tFilmstack where
  top : List tFilm
  count : Int
  deriving DecidableEq, Inhabited

/-- Subscription record. -/
structure tSubscription where
  id : Int
  document : String
  start_date : tDate
  end_date : tDate
  plan : String
  price : ℚ
  numDevices : Int
  watchlist : tFilmstack
  deriving DecidableEq, Inhabited

/-- Table of subscriptions: the `count` cells of `elems`. -/
structure tSubscriptions where
  elems : List tSubscription
  deriving DecidableEq, Inhabited

/-- The `count` field of a table of subscriptions. -/
def tSubscriptions.count (data : tSubscriptions) : Int := data.elems.length

/-- Person record: the document, the loyalty tier, and the remaining fields of
`person.h`, which `subscription.c` neither reads nor writes. -/
structure tPerson where
  document : String
  others : List String
  vipLevel : Int
  deriving DecidableEq, Inhabited

/-- Table of persons. -/
structure tPeople where
  elems : List tPerson
  deriving DecidableEq, Inhabited

/-- The `count` field of a table of persons. -/
def tPeople.count (people : tPeople) : Int := people.elems.length

/-- Result codes used by `subscription.c`. -/
inductive tApiError where
  | E_SUCCESS
  | E_SUBSCRIPTION_DUPLICATED
  | E_PERSON_NOT_FOUND
  | E_SUBSCRIPTION_NOT_FOUND
  deriving DecidableEq, Repr, Inhabited

open tApiError

/-! ## Collaborators declared outside `subscription.c` -/

/-- Character-wise comparison behind `strcmp`: the sign of the first
difference, a proper prefix being smaller. -/
def strcmp_chars : List Char → List Char → Int
  | [], [] => 0
  | [], _ :: _ => -1
  | _ :: _, [] => 1
  | c :: cs, d :: ds =>
    if c = d then strcmp_chars cs ds else if c.toNat < d.toNat then -1 else 1

/-- The libc comparison of two strings: `0` exactly when they are equal. -/
def strcmp (a b : String) : Int := strcmp_chars a.data b.data

/-- Modelled from the spec: `date_cmp` of `date.c` is not part of the sources.
It orders calendar dates by year, then month, then day, and returns `0` for
equal dates, `1` when the first is newer and `-1` when it is older. -/
def date_cmp (date1 date2 : tDate) : Int :=
  if date1.year ≠ date2.year then (if date1.year > date2.year then 1 else -1)
  else if date1.month ≠ date2.month then (if date1.month > date2.month then 1 else -1)
  else if date1.day ≠ date2.day then (if date1.day > date2.day then 1 else -1)
  else 0

/-- Modelled from the spec: `filmstack_init` of `film.c` is not part of the
sources.  It yields the empty watchlist (top = none, count = 0). -/
def filmstack_init (_stack : tFilmstack) : tFilmstack :=
  { top := [], count := 0 }

/-- Modelled from the spec: `filmstack_push` of `film.c` is not part of the
sources.  It prepends a new node owning a copy of `film` and increments the
count. -/
def filmstack_push (stack : tFilmstack) (film : tFilm) : tFilmstack :=
  { top := film :: stack.top, count := stack.count + 1 }

/-- Modelled from the spec: `filmstack_free` of `film.c` is not part of the
sources.  It releases every node and resets the watchlist to empty. -/
def filmstack_free (_stack : tFilmstack) : tFilmstack :=
  { top := [], count := 0 }

/-- Modelled from the spec: `film_equals` of `film.c` is not part of the
sources.  Equality of films is defined field-by-field. -/
def film_equals (film1 film2 : tFilm) : Bool := decide (film1 = film2)

/-- Scan of `people_find` from position `i`. -/
def people_find_from : List tPerson → String → Nat → Int
  | [], _, _ => -1
  | p :: rest, document, i =>
    if strcmp p.document document = 0 then (i : Int)
    else people_find_from rest document (i + 1)

/-- Modelled from the spec: `people_find` of `person.c` is not part of the
sources.  It returns the index of the person with the given document, or a
negative not-found value. -/
def people_find (people : tPeople) (document : String) : Int :=
  people_find_from people.elems document 0

/-! ## `subscription.c` -/

/-- First loop of `subscription_cpy`: walk the chain from the top and store node
number `j` in slot `j` of the local buffer.  A store outside the buffer is
undefined. -/
def subscription_cpy_collect :
    List tFilm → Nat → List (Option tFilm) → Option (List (Option tFilm))
  | [], _, pFimStackNodes => some pFimStackNodes
  | elem :: next, j, pFimStackNodes =>
    if j < pFimStackNodes.length then
      subscription_cpy_collect next (j + 1) (pFimStackNodes.set j (some elem))
    else none

/-- Second loop of `subscription_cpy`: for `j` from the given bound minus one
down to `0`, push the film of slot `j`.  Reading a slot that was never written is
undefined. -/
def subscription_cpy_push : Nat → List (Option tFilm) → tFilmstack → Option tFilmstack
  | 0, _, watchlist => some watchlist
  | j + 1, pFimStackNodes, watchlist =>
    match pFimStackNodes[j]? with
    | some (some elem) =>
      subscription_cpy_push j pFimStackNodes (filmstack_push watchlist elem)
    | _ => none

/-- Copy the data from the source to destination (individual data). -/
def subscription_cpy (destination source : tSubscription) : Option tSubscription :=
  let destination : tSubscription :=
    { destination with
      id := source.id
      document := source.document
      start_date := source.start_date
      end_date := source.end_date
      plan := source.plan
      price := source.price
      numDevices := source.numDevices }
  let destination : tSubscription :=
    { destination with watchlist := filmstack_init destination.watchlist }
  if source.watchlist.count > 0 then
    let n := source.watchlist.count.toNat
    match subscription_cpy_collect source.watchlist.top 0 (List.replicate n none) with
    | none => none
    | some pFimStackNodes =>
      match subscription_cpy_push n pFimStackNodes destination.watchlist with
      | none => none
      | some watchlist => some { destination with watchlist := watchlist }
  else some destination

/-- Compare two subscription. -/
def subscription_equal (subscription1 subscription2 : tSubscription) : Bool :=
  if strcmp subscription1.document subscription2.document ≠ 0 then false
  else if date_cmp subscription1.start_date subscription2.start_date ≠ 0 then false
  else if date_cmp subscription1.end_date subscription2.end_date ≠ 0 then false
  else if strcmp subscription1.plan subscription2.plan ≠ 0 then false
  else if subscription1.price ≠ subscription2.price then false
  else if subscription1.numDevices ≠ subscription2.numDevices then false
  else true

/-- Initialize subscriptions data. -/
def subscriptions_init (_data : tSubscriptions) : tApiError × tSubscriptions :=
  (E_SUCCESS, { elems := [] })

/-- Return the number of subscriptions. -/
def subscriptions_len (data : tSubscriptions) : Int := data.count

/-- Duplicate scan of `subscriptions_add`: `true` when some cell is
`subscription_equal` to the new subscription (the early return). -/
def subscriptions_add_scan : List tSubscription → tSubscription → Bool
  | [], _ => false
  | elem :: rest, subscription =>
    if subscription_equal elem subscription then true
    else subscriptions_add_scan rest subscription

/-- Add a new subscription.  The new cell is fresh memory; it is passed to
`subscription_cpy` as an arbitrary record. -/
def subscriptions_add (data : tSubscriptions) (people : tPeople)
    (subscription : tSubscription) : Option (tApiError × tSubscriptions) :=
  if subscriptions_add_scan data.elems subscription then
    some (E_SUBSCRIPTION_DUPLICATED, data)
  else if people_find people subscription.document < 0 then
    some (E_PERSON_NOT_FOUND, data)
  else
    match subscription_cpy default subscription with
    | none => none
    | some elem => some (E_SUCCESS, { elems := data.elems ++ [elem] })

/-- Scan of `subscriptions_find` from position `i`. -/
def subscriptions_find_from : List tSubscription → Int → Nat → Int
  | [], _, _ => -1
  | elem :: rest, id, i =>
    if elem.id = id then (i : Int) else subscriptions_find_from rest id (i + 1)

/-- Returns the position of a subscription looking for id's subscription. -1 if
it does not exist. -/
def subscriptions_find (data : tSubscriptions) (id : Int) : Int :=
  subscriptions_find_from data.elems id 0

/-- Remove all elements. -/
def subscriptions_free (data : tSubscriptions) : tApiError × tSubscriptions :=
  let freed : tSubscriptions :=
    { elems := data.elems.map fun elem =>
        { elem with watchlist := filmstack_free elem.watchlist } }
  (E_SUCCESS, (subscriptions_init freed).2)

/-- Shift loop of `subscriptions_del`: the given number of rounds, starting at
cell `i`; each round frees the watchlist of cell `i` and copies cell `i + 1`
over it. -/
def subscriptions_del_shift : Nat → Nat → List tSubscription → Option (List tSubscription)
  | 0, _, elems => some elems
  | rounds + 1, i, elems =>
    match elems[i]?, elems[i + 1]? with
    | some cur, some next =>
      match subscription_cpy { cur with watchlist := filmstack_free cur.watchlist } next with
      | none => none
      | some cell => subscriptions_del_shift rounds (i + 1) (elems.set i cell)
    | _, _ => none

/-- Remove a subscription. -/
def subscriptions_del (data : tSubscriptions) (id : Int) :
    Option (tApiError × tSubscriptions) :=
  let idx := subscriptions_find data id
  if idx < 0 then some (E_SUBSCRIPTION_NOT_FOUND, data)
  else
    match subscriptions_del_shift (data.count - 1 - idx).toNat idx.toNat data.elems with
    | none => none
    | some elems =>
      let count := data.count - 1
      if count > 0 then
        let elems := elems.modify
          (fun last => { last with watchlist := filmstack_free last.watchlist }) count.toNat
        some (E_SUCCESS, { elems := elems.take count.toNat })
      else
        some (E_SUCCESS, (subscriptions_free { elems := elems.take count.toNat }).2)

/-- The integer nearest to a rational, a tie going to the even one. -/
def round_half_even (y : ℚ) : Int :=
  if y - ⌊y⌋ < 1 / 2 then ⌊y⌋
  else if 1 / 2 < y - ⌊y⌋ then ⌊y⌋ + 1
  else if ⌊y⌋ % 2 = 0 then ⌊y⌋
  else ⌊y⌋ + 1

/-- IEEE 754 rounding to nearest, ties to even, into the binary format with
`prec` significant bits whose smallest quantum is `2 ^ emin` (exponent range not
bounded above): a value `x` with `2 ^ e ≤ |x| < 2 ^ (e + 1)` is rounded to a
multiple of `2 ^ (e - (prec - 1))`, of `2 ^ emin` in the subnormal range. -/
def float_round (prec : Nat) (emin : Int) (x : ℚ) : ℚ :=
  (round_half_even (x / 2 ^ max (Int.log 2 |x| - ((prec : Int) - 1)) emin) : ℚ)
    * 2 ^ max (Int.log 2 |x| - ((prec : Int) - 1)) emin

/-- The largest finite `float`. -/
def FLT_MAX : ℚ := (2 ^ 24 - 1) * 2 ^ 104

/-- The largest finite `double`. -/
def DBL_MAX : ℚ := (2 ^ 53 - 1) * 2 ^ 971

/-- The smallest `int`. -/
def INT_MIN : Int := -2147483648

/-- The largest `int`. -/
def INT_MAX : Int := 2147483647

/-- The `float` (binary32) a real result is rounded to; beyond the largest
finite `float` it is an infinity, `none`. -/
def to_float (x : ℚ) : Option ℚ :=
  if |float_round 24 (-149) x| ≤ FLT_MAX then some (float_round 24 (-149) x) else none

/-- The `double` (binary64) a real result is rounded to; beyond the largest
finite `double` it is an infinity, `none`. -/
def to_double (x : ℚ) : Option ℚ :=
  if |float_round 53 (-1074) x| ≤ DBL_MAX then some (float_round 53 (-1074) x) else none

/-- Product of two `float` values, in `float`.  An infinity or NaN operand gives
an infinity or a NaN. -/
def float_mul (a b : Option ℚ) : Option ℚ :=
  match a, b with
  | some x, some y => to_float (x * y)
  | _, _ => none

/-- Sum of two `float` values, in `float`.  An infinity or NaN operand gives an
infinity or a NaN. -/
def float_add (a b : Option ℚ) : Option ℚ :=
  match a, b with
  | some x, some y => to_float (x + y)
  | _, _ => none

/-- Quotient of a `float`, promoted to `double`, by the `double` constant
`500.0`, in `double`. -/
def double_div_500 (a : Option ℚ) : Option ℚ :=
  match a with
  | some x => to_double (x / 500)
  | none => none

/-- Conversion `(int)` of a `double`: the fractional part is discarded
(truncation toward zero).  The conversion is undefined, `none`, when the integral
part is not in the range of `int` and when the value is an infinity or a NaN. -/
def float_to_int (x : Option ℚ) : Option Int :=
  match x with
  | some v =>
    if INT_MIN ≤ (if 0 ≤ v then ⌊v⌋ else ⌈v⌉) ∧ (if 0 ≤ v then ⌊v⌋ else ⌈v⌉) ≤ INT_MAX then
      some (if 0 ≤ v then ⌊v⌋ else ⌈v⌉)
    else none
  | none => none

/-- Loop of `calculate_vipLevel` with its `float` accumulator `totalPrice`:
`totalPrice += price * (float) months`, the product and the sum each rounded to
`float`. -/
def calculate_vipLevel_loop : List tSubscription → String → Option ℚ → Option ℚ
  | [], _, totalPrice => totalPrice
  | elem :: rest, document, totalPrice =>
    if strcmp elem.document document = 0 then
      let start_d := elem.start_date
      let end_d := elem.end_date
      let months : Int := (end_d.year - start_d.year) * 12 + (end_d.month - start_d.month)
      let months : Int := if end_d.day ≥ start_d.day then months + 1 else months
      calculate_vipLevel_loop rest document
        (float_add totalPrice (float_mul (some elem.price) (to_float (months : ℚ))))
    else calculate_vipLevel_loop rest document totalPrice

/-- 2c - Calculate Vip Level of a person: `(int) (totalPrice / 500.0)`.  Where the
conversion is undefined the function is given the value the conversion
instruction of x86-64 delivers, `INT_MIN`; the result stays an `int` that the
callers store. -/
def calculate_vipLevel (data : tSubscriptions) (document : String) : Int :=
  match float_to_int
      (double_div_500 (calculate_vipLevel_loop data.elems document (some 0))) with
  | some tier => tier
  | none => INT_MIN

/-- Loop of `update_vipLevel` over the persons. -/
def update_vipLevel_loop (data : tSubscriptions) : List tPerson → List tPerson
  | [] => []
  | person :: rest =>
    let person : tPerson := if data.count = 0 then { person with vipLevel := 0 } else person
    let person : tPerson :=
      { person with vipLevel := calculate_vipLevel data person.document }
    person :: update_vipLevel_loop data rest

/-- 2d - Update the vipLevel of each person.  Both arguments are passed by
pointer; the result carries the subscriptions and the persons as the call
leaves them. -/
def update_vipLevel (data : tSubscriptions) (people : tPeople) :
    tApiError × tSubscriptions × tPeople :=
  (E_SUCCESS, data, { elems := update_vipLevel_loop data people.elems })

/-- Inner `for` loop of `popularFilm_find` over the working set, the entries
being the pairs `uniqueFilms[j]`, `filmCounts[j]`: at the first entry that
`film_equals` the current film the counter is incremented, the stored film is
replaced when the current one has a newer release date, and the loop stops.  The
first component is the flag `found`.  `film_equals` of `film.c` is not part of
the sources; it is the parameter `equals`. -/
def popularFilm_find_match (equals : tFilm → tFilm → Bool) (current : tFilm) :
    List (tFilm × Int) → Bool × List (tFilm × Int)
  | [] => (false, [])
  | (film, count) :: rest =>
    if equals film current then
      (true, ((if date_cmp current.release film.release > 0 then current else film),
        count + 1) :: rest)
    else
      ((popularFilm_find_match equals current rest).1,
        (film, count) :: (popularFilm_find_match equals current rest).2)

/-- Body of the `while` loop of `popularFilm_find` for one node.  The arrays have
10 cells: a store in cell 10 is undefined. -/
def popularFilm_find_visit (equals : tFilm → tFilm → Bool) (unique : List (tFilm × Int))
    (current : tFilm) : Option (List (tFilm × Int)) :=
  if (popularFilm_find_match equals current unique).1 then
    some (popularFilm_find_match equals current unique).2
  else if unique.length < 10 then some (unique ++ [(current, 1)])
  else none

/-- The `while` loop of `popularFilm_find` over one film stack, from the top. -/
def popularFilm_find_stack (equals : tFilm → tFilm → Bool) :
    List tFilm → List (tFilm × Int) → Option (List (tFilm × Int))
  | [], unique => some unique
  | current :: next, unique =>
    match popularFilm_find_visit equals unique current with
    | none => none
    | some unique => popularFilm_find_stack equals next unique

/-- The outer `for` loop of `popularFilm_find` over the subscriptions. -/
def popularFilm_find_scan (equals : tFilm → tFilm → Bool) :
    List tSubscription → List (tFilm × Int) → Option (List (tFilm × Int))
  | [], unique => some unique
  | elem :: rest, unique =>
    match popularFilm_find_stack equals elem.watchlist.top unique with
    | none => none
    | some unique => popularFilm_find_scan equals rest unique

/-- The selection loop of `popularFilm_find`: the given number of rounds from
index `i`, with the current `maxIndex`. -/
def popularFilm_find_select (unique : List (tFilm × Int)) : Nat → Nat → Nat → Nat
  | 0, _, maxIndex => maxIndex
  | rounds + 1, i, maxIndex =>
    match unique[i]?, unique[maxIndex]? with
    | some (film, count), some (maxFilm, maxCount) =>
      if count > maxCount then popularFilm_find_select unique rounds (i + 1) i
      else if count = maxCount then
        if date_cmp film.release maxFilm.release > 0 then
          popularFilm_find_select unique rounds (i + 1) i
        else popularFilm_find_select unique rounds (i + 1) maxIndex
      else popularFilm_find_select unique rounds (i + 1) maxIndex
    | _, _ => maxIndex

/-- 3a - Return the name of the most popular film.  `some none` is the answer
`NULL`. -/
def popularFilm_find (equals : tFilm → tFilm → Bool) (data : tSubscriptions) :
    Option (Option String) :=
  if data.count = 0 then some none
  else
    match popularFilm_find_scan equals data.elems [] with
    | none => none
    | some unique =>
      if unique.length = 0 then some none
      else
        let maxIndex := popularFilm_find_select unique (unique.length - 1) 1 0
        match unique[maxIndex]? with
        | some (film, _) =>
          match film.name with
          | some name => some (some name)
          | none => none
        | none => none

/-- First loop of the copy in `subscriptions_findByDocument`: store the nodes
from the top in `temp` while there are nodes and fewer than 1000 are stored
(`stackSize` is the length of `temp`). -/
def subscriptions_findByDocument_collect : List tFilm → List tFilm → List tFilm
  | [], temp => temp
  | elem :: next, temp =>
    if temp.length < 1000 then subscriptions_findByDocument_collect next (temp ++ [elem])
    else temp

/-- Second loop of the copy in `subscriptions_findByDocument`: for `j` from the
given bound minus one down to `0`, a new node with the fields of `temp[j]` is put
on top of the destination and its count is incremented. -/
def subscriptions_findByDocument_push : Nat → List tFilm → tFilmstack → tFilmstack
  | 0, _, watchlist => watchlist
  | j + 1, temp, watchlist =>
    match temp[j]? with
    | some elem =>
      let newNode : tFilm :=
        { name := match elem.name with
            | some name => some name
            | none => none
          duration := elem.duration
          genre := elem.genre
          release := elem.release
          rating := elem.rating
          isFree := elem.isFree }
      subscriptions_findByDocument_push j temp
        { top := newNode :: watchlist.top, count := watchlist.count + 1 }
    | none => watchlist

/-- The loop of `subscriptions_findByDocument` over the cells, `result` being the
cells written so far. -/
def subscriptions_findByDocument_loop :
    List tSubscription → String → List tSubscription → List tSubscription
  | [], _, result => result
  | src :: rest, document, result =>
    if strcmp src.document document = 0 then
      let temp := subscriptions_findByDocument_collect src.watchlist.top []
      let dest : tSubscription :=
        { id := (result.length : Int)
          document := src.document
          start_date := src.start_date
          end_date := src.end_date
          plan := src.plan
          price := src.price
          numDevices := src.numDevices
          watchlist :=
            subscriptions_findByDocument_push temp.length temp { top := [], count := 0 } }
      subscriptions_findByDocument_loop rest document (result ++ [dest])
    else subscriptions_findByDocument_loop rest document result

/-- 3b 3d - Return the subscriptions of the client with the specified document.
The first component is the returned pointer, the second the table as the call
leaves it (its cells are shared with the caller). -/
def subscriptions_findByDocument (data : tSubscriptions) (document : Option String) :
    Option tSubscriptions × tSubscriptions :=
  match document with
  | none => (none, data)
  | some document =>
    if data.count = 0 then (some { elems := [] }, data)
    else
      let result := subscriptions_findByDocument_loop data.elems document []
      if result.length = 0 then (some { elems := [] }, data)
      else (some { elems := result }, data)

/-- 3c - Return the subscription with the specified id.  `some none` is the
answer `NULL`; a read outside the table is undefined. -/
def subscriptions_findHash (data : tSubscriptions) (id : Int) :
    Option (Option tSubscription) :=
  if id < 1 ∨ id > data.count then some none
  else
    match data.elems[(id - 1).toNat]? with
    | some elem => some (some elem)
    | none => none

/-! ## Vocabulary of the statements -/

/-- The data-model invariant of a film stack: the stored count is the number of
nodes of the chain. -/
def wf_stack (stack : tFilmstack) : Prop := stack.count = stack.top.length

instance (stack : tFilmstack) : Decidable (wf_stack stack) := by
  unfold wf_stack; infer_instance

/-- Two subscriptions agree on the identity fields. -/
def same_identity (a b : tSubscription) : Prop :=
  a.document = b.document ∧ a.start_date = b.start_date ∧ a.end_date = b.end_date ∧
    a.plan = b.plan ∧ a.price = b.price ∧ a.numDevices = b.numDevices

instance (a b : tSubscription) : Decidable (same_identity a b) := by
  unfold same_identity; infer_instance

/-- The months a subscription is active, in the words of the specification:
`(end.year - start.year) * 12 + (end.month - start.month)`, plus one when
`end.day ≥ start.day`. -/
def monthsActive (s : tSubscription) : Int :=
  (s.end_date.year - s.start_date.year) * 12 + (s.end_date.month - s.start_date.month)
    + (if s.end_date.day ≥ s.start_date.day then 1 else 0)

/-- The watchlist nodes of the cells, in the order in which the scan of
`popularFilm_find` meets them: cell after cell, each chain from its top. -/
def all_films : List tSubscription → List tFilm
  | [] => []
  | elem :: rest => elem.watchlist.top ++ all_films rest

/-- One step of `distinct_films`: a film is kept unless a kept film equals it. -/
def distinct_films_step (equals : tFilm → tFilm → Bool) (kept : List tFilm)
    (film : tFilm) : List tFilm :=
  if kept.any (fun d => equals d film) then kept else kept ++ [film]

/-- The distinct films of a list: the first occurrence of each film, films being
told apart by `equals`. -/
def distinct_films (equals : tFilm → tFilm → Bool) (films : List tFilm) : List tFilm :=
  films.foldl (distinct_films_step equals) []

/-- The comparison of films is an equivalence relation. -/
def film_equivalence (equals : tFilm → tFilm → Bool) : Prop :=
  (∀ a, equals a a = true) ∧ (∀ a b, equals a b = true → equals b a = true) ∧
    (∀ a b c, equals a b = true → equals b c = true → equals a c = true)

/-- The number of films of a list that `equals` identifies with a given film. -/
def occurrences (equals : tFilm → tFilm → Bool) (film : tFilm) (films : List tFilm) : Int :=
  ((films.filter fun g => equals film g).length : Int)

/-- No two cells at distinct positions are `subscription_equal`. -/
def no_duplicates (data : tSubscriptions) : Prop :=
  ∀ (i j : Nat) (a b : tSubscription), i ≠ j →
    data.elems[i]? = some a → data.elems[j]? = some b → subscription_equal a b = false

/-- The ids are the dense 1-based sequence of the positions: the cell at index
`i` has id `i + 1`. -/
def dense_ids (data : tSubscriptions) : Prop :=
  ∀ (i : Nat) (e : tSubscription), data.elems[i]? = some e → e.id = (i : Int) + 1

/-- The identity fields of a subscription, those `subscription_equal` reads. -/
def identity_key (s : tSubscription) : String × tDate × tDate × String × ℚ × Int :=
  (s.document, s.start_date, s.end_date, s.plan, s.price, s.numDevices)

/-- The copy `subscriptions_findByDocument` makes of a cell, in closed form: the
given id, the scalar fields of the cell, and the top 1000 films of its
watchlist with their number as count. -/
def projection_of (id : Nat) (src : tSubscription) : tSubscription :=
  { src with
    id := (id : Int)
    watchlist :=
      { top := src.watchlist.top.take 1000
        count := ((min src.watchlist.top.length 1000 : Nat) : Int) } }

/-- What the working set of `popularFilm_find` is to the films scanned so far:
its films are pairwise different, each counter is the number of scanned films
equal to its film, each stored film is a scanned film with the newest release
date among the scanned films equal to it, every scanned film is represented,
there are as many entries as distinct films, and the counters add up to the
number of scanned films. -/
def working_set_inv (equals : tFilm → tFilm → Bool) (films : List tFilm)
    (unique : List (tFilm × Int)) : Prop :=
  unique.Pairwise (fun x y => equals x.1 y.1 = false) ∧
  (∀ x ∈ unique, x.2 = occurrences equals x.1 films) ∧
  (∀ x ∈ unique, x.1 ∈ films ∧
    ∀ g ∈ films, equals x.1 g = true → date_cmp g.release x.1.release ≤ 0) ∧
  (∀ g ∈ films, ∃ x ∈ unique, equals x.1 g = true) ∧
  unique.length = (distinct_films equals films).length ∧
  (unique.map Prod.snd).sum = (films.length : Int)

/-- What `maxIndex` is to the entries before index `i`: no entry has a larger
counter, no entry with the same counter has a newer release date, and every
earlier entry with the same counter has an older one. -/
def select_inv (unique : List (tFilm × Int)) (m i : Nat) : Prop :=
  ∀ (j : Nat) (x y : tFilm × Int), j < i → unique[j]? = some x → unique[m]? = some y →
    x.2 ≤ y.2 ∧ (x.2 = y.2 → date_cmp x.1.release y.1.release ≤ 0) ∧
      (j < m → x.2 = y.2 → date_cmp x.1.release y.1.release < 0)

/-- A comparison of films that looks at the name only. -/
def film_same_name (film1 film2 : tFilm) : Bool := decide (film1.name = film2.name)

/-- The copies of a list of cells, numbered from the given position on. -/
def projection_from : Nat → List tSubscription → List tSubscription
  | _, [] => []
  | k, src :: rest => projection_of k src :: projection_from (k + 1) rest

/-! ## Sample data -/

/-- A date from year, month and day. -/
def mk_date (year month day : Int) : tDate := { day := day, month := month, year := year }

/-- Sample film "X". -/
def film_X : tFilm :=
  { name := some "X", duration := 90, genre := 0, release := mk_date 2020 1 1,
    rating := 4, isFree := true }

/-- Sample film "Y". -/
def film_Y : tFilm := { film_X with name := some "Y", release := mk_date 2021 1 1 }

/-- Sample film "Z". -/
def film_Z : tFilm := { film_X with name := some "Z", release := mk_date 2023 1 1 }

/-- The watchlist obtained by pushing X, then Y, then Z on an empty one. -/
def stack_XYZ : tFilmstack :=
  filmstack_push (filmstack_push (filmstack_push (filmstack_init default) film_X) film_Y) film_Z

/-- Sample subscription: id 1, price 1000, from 2023-01-15 to 2023-03-10. -/
def sub_A : tSubscription :=
  { id := 1, document := "11111111A", start_date := mk_date 2023 1 15,
    end_date := mk_date 2023 3 10, plan := "Premium", price := 1000, numDevices := 2,
    watchlist := stack_XYZ }

/-- The identity fields of `sub_A` under another id and with an empty watchlist. -/
def sub_B : tSubscription := { sub_A with id := 2, watchlist := { top := [], count := 0 } }

/-- The id of `sub_A` with another plan. -/
def sub_C : tSubscription := { sub_A with plan := "Basic" }

/-- A subscription of another person that ends before it starts. -/
def sub_D : tSubscription :=
  { id := 4, document := "22222222B", start_date := mk_date 2023 3 1,
    end_date := mk_date 2023 1 1, plan := "Basic", price := 100, numDevices := 1,
    watchlist := { top := [], count := 0 } }

/-- A subscription of the first person with id 5. -/
def sub_E : tSubscription := { sub_A with id := 5, plan := "Family" }

/-- Two persons, with stale tiers. -/
def people_AB : tPeople :=
  { elems := [{ document := "11111111A", others := ["Ann"], vipLevel := 7 },
              { document := "22222222B", others := ["Bob"], vipLevel := 7 }] }

/-- Nobody. -/
def people_none : tPeople := { elems := [] }

/-- The empty table. -/
def data_empty : tSubscriptions := { elems := [] }

/-- The table holding `sub_A`. -/
def data_A : tSubscriptions := { elems := [sub_A] }

/-- The table holding `sub_A`, `sub_D`, `sub_E`. -/
def data_ADE : tSubscriptions := { elems := [sub_A, sub_D, sub_E] }

/-- Sample film "A", released in 2020. -/
def film_A : tFilm :=
  { name := some "A", duration := 100, genre := 1, release := mk_date 2020 5 1,
    rating := 3, isFree := false }

/-- Sample film "B", released in 2023. -/
def film_B : tFilm :=
  { name := some "B", duration := 110, genre := 2, release := mk_date 2023 5 1,
    rating := 5, isFree := false }

/-- A subscription with id 1 whose watchlist holds film "A". -/
def sub_P : tSubscription :=
  { sub_A with id := 1, plan := "P", watchlist := { top := [film_A], count := 1 } }

/-- A subscription with id 2 whose watchlist holds film "B". -/
def sub_Q : tSubscription :=
  { sub_A with id := 2, plan := "Q", watchlist := { top := [film_B], count := 1 } }

/-- A subscription with id 3, of another person, whose watchlist holds film "A". -/
def sub_R : tSubscription :=
  { sub_D with id := 3, plan := "R", watchlist := { top := [film_A], count := 1 } }

/-- Three subscriptions: film "A" twice and film "B" once. -/
def data_PQR : tSubscriptions := { elems := [sub_P, sub_Q, sub_R] }

/-- Two subscriptions: film "A" and film "B" once each. -/
def data_PQ : tSubscriptions := { elems := [sub_P, sub_Q] }

/-- A subscription whose watchlist holds 1001 films, "Z" on top of 1000 "X". -/
def sub_long : tSubscription :=
  { sub_A with
    watchlist := { top := film_Z :: List.replicate 1000 film_X, count := 1001 } }

/-- Film "A" in a record with a newer release date. -/
def film_A_new : tFilm := { film_A with release := mk_date 2024 1 1 }

/-- A subscription with id 4 whose watchlist holds the newer "A" on top of "B". -/
def sub_S : tSubscription :=
  { sub_A with id := 4, plan := "S", watchlist := { top := [film_A_new, film_B], count := 2 } }

/-- Two subscriptions: "A" (2020), then the newer "A" and "B". -/
def data_PS : tSubscriptions := { elems := [sub_P, sub_S] }

/-- A film whose name is `NULL`. -/
def film_null : tFilm := { film_A with name := none }

/-- A subscription whose watchlist holds the film without name. -/
def sub_N : tSubscription :=
  { sub_A with id := 6, plan := "N", watchlist := { top := [film_null], count := 1 } }

/-- The table holding `sub_N`. -/
def data_N : tSubscriptions := { elems := [sub_N] }

/-! ## Basic facts -/

theorem strcmp_chars_eq_zero (a b : List Char) : strcmp_chars a b = 0 ↔ a = b := by
  induction a generalizing b with
  | nil => cases b <;> simp [strcmp_chars]
  | cons c cs ih =>
    cases b with
    | nil => simp [strcmp_chars]
    | cons d ds =>
      by_cases h : c = d
      · simp [strcmp_chars, h, ih]
      · by_cases h2 : c.toNat < d.toNat <;> simp [strcmp_chars, h, h2]

theorem strcmp_eq_zero (a b : String) : strcmp a b = 0 ↔ a = b := by
  unfold strcmp
  rw [strcmp_chars_eq_zero]
  constructor
  · intro h; exact String.ext h
  · intro h; rw [h]

theorem date_cmp_eq_zero (a b : tDate) : date_cmp a b = 0 ↔ a = b := by
  cases a with
  | mk ad am ay =>
    cases b with
    | mk bd bm by_ =>
      unfold date_cmp
      simp only [tDate.mk.injEq]
      by_cases hy : ay = by_
      · by_cases hm : am = bm
        · by_cases hd : ad = bd
          · simp [hy, hm, hd]
          · by_cases h : ad > bd <;> simp [hy, hm, hd, h]
        · by_cases h : am > bm <;> simp [hy, hm, h]
      · by_cases h : ay > by_ <;> simp [hy, h]

theorem subscription_equal_iff (a b : tSubscription) :
    subscription_equal a b = true ↔ same_identity a b := by
  unfold subscription_equal same_identity
  simp only [ne_eq, strcmp_eq_zero, date_cmp_eq_zero]
  by_cases h1 : a.document = b.document <;>
  by_cases h2 : a.start_date = b.start_date <;>
  by_cases h3 : a.end_date = b.end_date <;>
  by_cases h4 : a.plan = b.plan <;>
  by_cases h5 : a.price = b.price <;>
  by_cases h6 : a.numDevices = b.numDevices <;>
  simp [h1, h2, h3, h4, h5, h6]

theorem subscriptions_add_scan_iff (elems : List tSubscription) (s : tSubscription) :
    subscriptions_add_scan elems s = true ↔ ∃ e ∈ elems, subscription_equal e s = true := by
  induction elems with
  | nil => simp [subscriptions_add_scan]
  | cons e rest ih =>
    by_cases h : subscription_equal e s = true
    · simp [subscriptions_add_scan, h]
    · simp [subscriptions_add_scan, h, ih]

/-! ## `subscription_cpy` -/

theorem subscription_cpy_collect_spec (l done : List tFilm) (rest : List (Option tFilm))
    (h : rest.length = l.length) :
    subscription_cpy_collect l done.length (done.map some ++ rest)
      = some ((done ++ l).map some) := by
  induction l generalizing done rest with
  | nil =>
    have : rest = [] := List.length_eq_zero.mp h
    simp [subscription_cpy_collect, this]
  | cons f next ih =>
    cases rest with
    | nil => simp at h
    | cons r rest =>
      have hlen : rest.length = next.length := by simpa using h
      have hlt : done.length < (done.map some ++ r :: rest).length := by simp
      have hset : (done.map some ++ r :: rest).set done.length (some f)
          = (done ++ [f]).map some ++ rest := by
        rw [List.set_append_right _ _ (by simp)]
        simp
      have := ih (done ++ [f]) rest hlen
      simp only [List.length_append, List.length_singleton] at this
      rw [subscription_cpy_collect, if_pos hlt, hset, this]
      simp

theorem subscription_cpy_push_spec (l : List tFilm) (j : Nat) (hj : j ≤ l.length)
    (watchlist : tFilmstack) :
    subscription_cpy_push j (l.map some) watchlist
      = some { top := l.take j ++ watchlist.top, count := watchlist.count + j } := by
  induction j generalizing watchlist with
  | zero => simp [subscription_cpy_push]
  | succ j ih =>
    have hlt : j < l.length := hj
    have hget : (l.map some)[j]? = some (some l[j]) := by
      simp [List.getElem?_eq_getElem hlt]
    rw [subscription_cpy_push, hget]
    simp only
    rw [ih (Nat.le_of_lt hlt)]
    simp only [filmstack_push, Option.some.injEq, tFilmstack.mk.injEq]
    constructor
    · rw [← List.take_concat_get l j hlt, List.concat_eq_append, List.append_assoc]
      rfl
    · push_cast; ring

/-- On a well-formed source the copy is the source itself, value for value. -/
theorem subscription_cpy_wf (destination source : tSubscription)
    (h : wf_stack source.watchlist) :
    subscription_cpy destination source = some source := by
  cases source with
  | mk id document start_date end_date plan price numDevices watchlist =>
    cases watchlist with
    | mk top count =>
      simp only [wf_stack] at h
      subst h
      have h1 := subscription_cpy_collect_spec top [] (List.replicate top.length none) (by simp)
      simp only [List.length_nil, List.map_nil, List.nil_append] at h1
      have h2 := subscription_cpy_push_spec top top.length (Nat.le_refl _)
        { top := [], count := 0 }
      simp only [List.take_length, List.append_nil, zero_add] at h2
      unfold subscription_cpy
      simp only [filmstack_init, Int.toNat_ofNat, h1, h2]
      cases top with
      | nil => simp
      | cons f next => simp

/-- The destination's previous content does not influence the copy. -/
theorem subscription_cpy_destination (d1 d2 source : tSubscription) :
    subscription_cpy d1 source = subscription_cpy d2 source := by
  simp [subscription_cpy, filmstack_init]

/-- Whatever the watchlist, a copy carries the scalar fields of its source. -/
theorem subscription_cpy_fields (destination source r : tSubscription)
    (h : subscription_cpy destination source = some r) :
    r.id = source.id ∧ same_identity r source := by
  unfold subscription_cpy at h
  simp only [filmstack_init] at h
  unfold same_identity
  split at h
  · split at h
    · exact absurd h (by simp)
    · split at h
      · exact absurd h (by simp)
      · cases h; simp
  · cases h; simp

/-- A copy that is produced always satisfies the count invariant. -/
theorem subscription_cpy_result_wf (destination source r : tSubscription)
    (h : subscription_cpy destination source = some r) : wf_stack r.watchlist := by
  by_cases hc : source.watchlist.count > 0
  · -- the buffer has `count` slots: the walk fails unless the chain fits, and the
    -- push loop fails unless every slot was written
    by_cases hw : wf_stack source.watchlist
    · rw [subscription_cpy_wf destination source hw] at h
      cases h; exact hw
    · exfalso
      unfold wf_stack at hw
      unfold subscription_cpy at h
      simp only [if_pos hc, filmstack_init] at h
      rcases Nat.lt_or_gt_of_ne (fun e : source.watchlist.count.toNat
          = source.watchlist.top.length => hw (by omega)) with hlt | hgt
      · -- more nodes than slots: a store goes past the buffer
        have key : ∀ (l : List tFilm) (j : Nat) (buf : List (Option tFilm)),
            buf.length < j + l.length → j ≤ buf.length →
            subscription_cpy_collect l j buf = none := by
          intro l
          induction l with
          | nil => intro j buf hb hj; simp at hb; omega
          | cons f next ih =>
            intro j buf hb hj
            unfold subscription_cpy_collect
            split
            · apply ih
              · simp only [List.length_set, List.length_cons] at hb ⊢; omega
              · simp only [List.length_set]; omega
            · rfl
        rw [key _ _ _ (by simpa using hlt) (Nat.zero_le _)] at h
        exact absurd h (by simp)
      · -- fewer nodes than slots: the push loop reads an unwritten slot
        have keyc : ∀ (l : List tFilm) (j : Nat) (buf out : List (Option tFilm)),
            subscription_cpy_collect l j buf = some out →
            out.length = buf.length ∧ ∀ k, j + l.length ≤ k → out[k]? = buf[k]? := by
          intro l
          induction l with
          | nil =>
            intro j buf out ho
            simp only [subscription_cpy_collect, Option.some.injEq] at ho
            subst ho; simp
          | cons f next ih =>
            intro j buf out ho
            unfold subscription_cpy_collect at ho
            split at ho
            · obtain ⟨h1, h2⟩ := ih _ _ _ ho
              refine ⟨by simpa using h1, fun k hk => ?_⟩
              rw [h2 k (by simp only [List.length_cons] at hk; omega)]
              rw [List.getElem?_set_ne]
              simp only [List.length_cons] at hk; omega
            · exact absurd ho (by simp)
        have keyp : ∀ (j : Nat) (buf : List (Option tFilm)) (w : tFilmstack) (k : Nat),
            k < j → buf[k]? = some none → subscription_cpy_push j buf w = none := by
          intro j
          induction j with
          | zero => intro buf w k hk; omega
          | succ j ih =>
            intro buf w k hk hb
            unfold subscription_cpy_push
            by_cases hkj : k = j
            · subst hkj; rw [hb]
            · split
              · exact ih _ _ k (by omega) hb
              · rfl
        split at h
        · exact absurd h (by simp)
        · rename_i out ho
          obtain ⟨_, h2⟩ := keyc _ _ _ _ ho
          have hslot : out[source.watchlist.top.length]? = some none := by
            rw [h2 _ (by omega)]
            simp [List.getElem?_replicate, hgt]
          rw [keyp _ out _ source.watchlist.top.length hgt hslot] at h
          exact absurd h (by simp)
  · unfold subscription_cpy at h
    simp only [if_neg hc, filmstack_init, Option.some.injEq] at h
    subst h
    simp [wf_stack]

/-! ## `subscriptions_add` -/

theorem subscriptions_add_success (c c' : tSubscriptions) (p : tPeople) (s : tSubscription)
    (h : subscriptions_add c p s = some (E_SUCCESS, c')) :
    subscriptions_add_scan c.elems s = false ∧ 0 ≤ people_find p s.document ∧
      ∃ e, subscription_cpy default s = some e ∧ c' = { elems := c.elems ++ [e] } := by
  unfold subscriptions_add at h
  by_cases hs : subscriptions_add_scan c.elems s = true
  · simp [hs] at h
  · by_cases hp : people_find p s.document < 0
    · simp [hs, hp] at h
    · rw [if_neg hs, if_neg hp] at h
      cases he : subscription_cpy default s with
      | none => simp [he] at h
      | some e =>
        simp only [he, Option.some.injEq, Prod.mk.injEq, true_and] at h
        exact ⟨by simpa using hs, not_lt.mp hp, e, rfl, h.symm⟩

/-- C1: once `subscriptions_add` has accepted A, adding any B with the same
document, dates, plan, price and number of devices (whatever its id and
watchlist) returns `E_SUBSCRIPTION_DUPLICATED` and leaves the table as it was. -/
theorem subscriptions_add_duplicate_after_add (c c' : tSubscriptions) (p : tPeople)
    (A B : tSubscription) (hAB : same_identity A B)
    (hadd : subscriptions_add c p A = some (E_SUCCESS, c')) :
    subscriptions_add c' p B = some (E_SUBSCRIPTION_DUPLICATED, c') := by
  obtain ⟨_, _, e, he, hc'⟩ := subscriptions_add_success c c' p A hadd
  have hid : same_identity e A := (subscription_cpy_fields default A e he).2
  have heq : subscription_equal e B = true := by
    rw [subscription_equal_iff]
    unfold same_identity at hid hAB ⊢
    obtain ⟨h1, h2, h3, h4, h5, h6⟩ := hid
    obtain ⟨g1, g2, g3, g4, g5, g6⟩ := hAB
    exact ⟨h1.trans g1, h2.trans g2, h3.trans g3, h4.trans g4, h5.trans g5, h6.trans g6⟩
  have hscan : subscriptions_add_scan c'.elems B = true := by
    rw [subscriptions_add_scan_iff]
    exact ⟨e, by rw [hc']; simp, heq⟩
  unfold subscriptions_add
  rw [if_pos hscan]

/-- Witness of C1: `sub_A` enters the empty table, then `sub_B` is refused. -/
theorem subscriptions_add_duplicate_after_add_witness :
    same_identity sub_A sub_B ∧
      subscriptions_add data_empty people_AB sub_A = some (E_SUCCESS, data_A) ∧
      subscriptions_add data_A people_AB sub_B = some (E_SUBSCRIPTION_DUPLICATED, data_A) :=
  ⟨by decide, by decide,
    subscriptions_add_duplicate_after_add data_empty data_A people_AB sub_A sub_B
      (by decide) (by decide)⟩

/-- C2, as stated, fails: `sub_B` names a document that `people_none` does not
hold, yet adding it to the table holding `sub_A` returns
`E_SUBSCRIPTION_DUPLICATED`, because the duplicate scan runs first. -/
theorem subscriptions_add_person_not_found_counterexample :
    people_find people_none sub_B.document < 0 ∧
      subscriptions_add data_A people_none sub_B = some (E_SUBSCRIPTION_DUPLICATED, data_A) ∧
      subscriptions_add data_A people_none sub_B ≠ some (E_PERSON_NOT_FOUND, data_A) := by
  decide

/-- C2, amended: when `people_find` reports not-found for the subscription's
document, `subscriptions_add` leaves the table unchanged; it returns
`E_PERSON_NOT_FOUND` when no cell is `subscription_equal` to the subscription,
and `E_SUBSCRIPTION_DUPLICATED` when some cell is. -/
theorem subscriptions_add_person_not_found (c : tSubscriptions) (p : tPeople)
    (s : tSubscription) (hp : people_find p s.document < 0) :
    ((∀ e ∈ c.elems, subscription_equal e s = false) →
        subscriptions_add c p s = some (E_PERSON_NOT_FOUND, c)) ∧
      ((∃ e ∈ c.elems, subscription_equal e s = true) →
        subscriptions_add c p s = some (E_SUBSCRIPTION_DUPLICATED, c)) := by
  constructor
  · intro hne
    have hscan : ¬ subscriptions_add_scan c.elems s = true := by
      rw [subscriptions_add_scan_iff]
      rintro ⟨e, he, heq⟩
      rw [hne e he] at heq
      exact absurd heq (by simp)
    unfold subscriptions_add
    rw [if_neg hscan, if_pos hp]
  · intro hex
    have hscan : subscriptions_add_scan c.elems s = true :=
      (subscriptions_add_scan_iff c.elems s).mpr hex
    unfold subscriptions_add
    rw [if_pos hscan]

/-- Witness of C2 (amended): `sub_C` is no duplicate in the table holding `sub_A`
and nobody is registered, so the call answers `E_PERSON_NOT_FOUND`. -/
theorem subscriptions_add_person_not_found_witness :
    people_find people_none sub_C.document < 0 ∧
      subscriptions_add data_A people_none sub_C = some (E_PERSON_NOT_FOUND, data_A) :=
  ⟨by decide,
    (subscriptions_add_person_not_found data_A people_none sub_C (by decide)).1 (by decide)⟩

/-- C3: when no cell is `subscription_equal` to the subscription, its document
is found among the persons, and its watchlist satisfies the count invariant of
the data model, `subscriptions_add` returns `E_SUCCESS` and the table becomes the
old cells, in order and untouched, followed by one cell equal to the subscription
field for field (id, identity fields, watchlist from top to bottom and its
count); the count grows by one. -/
theorem subscriptions_add_appends (c : tSubscriptions) (p : tPeople) (s : tSubscription)
    (hne : ∀ e ∈ c.elems, subscription_equal e s = false)
    (hp : 0 ≤ people_find p s.document) (hwf : wf_stack s.watchlist) :
    ∃ c', subscriptions_add c p s = some (E_SUCCESS, c') ∧
      c'.elems = c.elems ++ [s] ∧ c'.count = c.count + 1 := by
  have hscan : ¬ subscriptions_add_scan c.elems s = true := by
    rw [subscriptions_add_scan_iff]
    rintro ⟨e, he, heq⟩
    rw [hne e he] at heq
    exact absurd heq (by simp)
  refine ⟨{ elems := c.elems ++ [s] }, ?_, rfl, ?_⟩
  · unfold subscriptions_add
    rw [if_neg hscan, if_neg (not_lt.mpr hp), subscription_cpy_wf default s hwf]
  · simp [tSubscriptions.count]

/-- Witness of C3: `sub_C` is appended to the table holding `sub_A`. -/
theorem subscriptions_add_appends_witness :
    ∃ c', subscriptions_add data_A people_AB sub_C = some (E_SUCCESS, c') ∧
      c'.elems = data_A.elems ++ [sub_C] ∧ c'.count = data_A.count + 1 :=
  subscriptions_add_appends data_A people_AB sub_C (by decide) (by decide) (by decide)

/-! ## `subscriptions_find` -/

theorem subscriptions_find_from_none (l : List tSubscription) (id : Int) (i : Nat)
    (h : ∀ e ∈ l, e.id ≠ id) : subscriptions_find_from l id i = -1 := by
  induction l generalizing i with
  | nil => rfl
  | cons e rest ih =>
    have he : e.id ≠ id := h e (by simp)
    rw [subscriptions_find_from, if_neg he]
    exact ih (i + 1) (fun x hx => h x (by simp [hx]))

theorem subscriptions_find_from_some (l : List tSubscription) (id : Int) (i : Nat)
    (h : ∃ e ∈ l, e.id = id) :
    ∃ k, subscriptions_find_from l id i = ((i + k : Nat) : Int) ∧ k < l.length ∧
      (∃ e, l[k]? = some e ∧ e.id = id) ∧
      ∀ j, j < k → ∀ e, l[j]? = some e → e.id ≠ id := by
  induction l generalizing i with
  | nil => simp at h
  | cons e rest ih =>
    by_cases he : e.id = id
    · refine ⟨0, ?_, by simp, ⟨e, by simp, he⟩, fun j hj => absurd hj (by omega)⟩
      rw [subscriptions_find_from, if_pos he]; simp
    · have hrest : ∃ x ∈ rest, x.id = id := by
        obtain ⟨x, hx, hxid⟩ := h
        rcases List.mem_cons.mp hx with rfl | hx
        · exact absurd hxid he
        · exact ⟨x, hx, hxid⟩
      obtain ⟨k, hk, hlt, hat, hmin⟩ := ih (i + 1) hrest
      refine ⟨k + 1, ?_, by simpa using hlt, by simpa using hat, ?_⟩
      · rw [subscriptions_find_from, if_neg he, hk]; push_cast; ring
      · intro j hj x hx
        cases j with
        | zero => simp at hx; subst hx; exact he
        | succ j => exact hmin j (by omega) x (by simpa using hx)

theorem subscriptions_find_neg_iff (c : tSubscriptions) (id : Int) :
    subscriptions_find c id < 0 ↔ ∀ e ∈ c.elems, e.id ≠ id := by
  constructor
  · intro h e he heid
    obtain ⟨k, hk, _⟩ := subscriptions_find_from_some c.elems id 0 ⟨e, he, heid⟩
    unfold subscriptions_find at h
    rw [hk] at h
    omega
  · intro h
    unfold subscriptions_find
    rw [subscriptions_find_from_none c.elems id 0 h]
    decide

/-! ## `subscriptions_del` -/

theorem set_next_eraseIdx {α : Type} (l : List α) (i : Nat) (x : α)
    (h : l[i + 1]? = some x) : (l.set i x).eraseIdx (i + 1) = l.eraseIdx i := by
  induction l generalizing i with
  | nil => simp at h
  | cons a rest ih =>
    cases i with
    | zero =>
      cases rest with
      | nil => simp at h
      | cons b rest => simp at h; simp [h]
    | succ i =>
      simp only [List.set_cons_succ, List.eraseIdx_cons_succ, List.cons.injEq, true_and]
      exact ih i (by simpa using h)

theorem subscriptions_del_shift_spec (rounds i : Nat) (elems : List tSubscription)
    (hlen : i + rounds + 1 = elems.length) (hwf : ∀ e ∈ elems, wf_stack e.watchlist) :
    ∃ out, subscriptions_del_shift rounds i elems = some out ∧
      out.length = elems.length ∧ out.take (elems.length - 1) = elems.eraseIdx i := by
  induction rounds generalizing i elems with
  | zero =>
    refine ⟨elems, rfl, rfl, ?_⟩
    have hi : elems.length - 1 = i := by omega
    rw [hi, List.eraseIdx_eq_take_drop_succ, List.drop_of_length_le (by omega)]
    simp
  | succ rounds ih =>
    have h0 : i < elems.length := by omega
    have h1 : i + 1 < elems.length := by omega
    have hnext : wf_stack (elems[i + 1]).watchlist := hwf _ (List.getElem_mem _)
    have hset_wf : ∀ e ∈ elems.set i elems[i + 1], wf_stack e.watchlist := by
      intro e he
      rcases List.mem_or_eq_of_mem_set he with h | h
      · exact hwf e h
      · rw [h]; exact hnext
    obtain ⟨out, hout, hl, ht⟩ := ih (i + 1) (elems.set i elems[i + 1])
      (by simp only [List.length_set]; omega) hset_wf
    refine ⟨out, ?_, by simpa using hl, ?_⟩
    · rw [subscriptions_del_shift, List.getElem?_eq_getElem h0, List.getElem?_eq_getElem h1]
      simp only
      rw [subscription_cpy_wf _ _ hnext]
      exact hout
    · simp only [List.length_set] at ht
      rw [ht, set_next_eraseIdx _ _ _ (List.getElem?_eq_getElem h1)]

/-- The effect of a successful `subscriptions_del` on a table whose watchlists
satisfy the count invariant: the cell at the found position is erased. -/
theorem subscriptions_del_found (c : tSubscriptions) (id : Int)
    (hwf : ∀ e ∈ c.elems, wf_stack e.watchlist) (hex : ∃ e ∈ c.elems, e.id = id) :
    ∃ k : Nat, subscriptions_find c id = (k : Int) ∧ k < c.elems.length ∧
      (∃ e, c.elems[k]? = some e ∧ e.id = id) ∧
      (∀ j, j < k → ∀ e, c.elems[j]? = some e → e.id ≠ id) ∧
      subscriptions_del c id = some (E_SUCCESS, { elems := c.elems.eraseIdx k }) := by
  obtain ⟨k, hk, hlt, hat, hmin⟩ := subscriptions_find_from_some c.elems id 0 hex
  simp only [Nat.zero_add] at hk
  refine ⟨k, hk, hlt, hat, hmin, ?_⟩
  obtain ⟨out, hout, hl, ht⟩ := subscriptions_del_shift_spec (c.elems.length - 1 - k) k c.elems
    (by omega) hwf
  have hrounds : (c.count - 1 - (k : Int)).toNat = c.elems.length - 1 - k := by
    simp only [tSubscriptions.count]; omega
  have hcnt : (c.count - 1).toNat = c.elems.length - 1 := by
    simp only [tSubscriptions.count]; omega
  unfold subscriptions_del
  simp only [subscriptions_find] at hk ⊢
  simp only [hk, hrounds, Int.toNat_ofNat, hout, hcnt]
  rw [if_neg (by omega)]
  by_cases hpos : c.count - 1 > 0
  · rw [if_pos hpos, List.take_modify, ht]
    congr 3
    apply List.modify_eq_self
    rw [List.length_eraseIdx]; simp [hlt]
  · rw [if_neg hpos]
    have hone : c.elems.length = 1 := by
      simp only [tSubscriptions.count] at hpos; omega
    have hk0 : k = 0 := by omega
    subst hk0
    have : c.elems.eraseIdx 0 = [] := by
      apply List.length_eq_zero.mp
      rw [List.length_eraseIdx]; simp [hone]
    simp [subscriptions_free, subscriptions_init, this]

/-- C4: on a table whose watchlists satisfy the count invariant of the data
model and that holds a cell with the given id, `subscriptions_del` returns
`E_SUCCESS` and the table becomes the old one with exactly the cell at position
`subscriptions_find` erased: the cells before it stay where they were, the cells
after it move one position down, each with all its fields and its watchlist
unchanged; the count drops by one, and a table that becomes empty is the
initialised one. -/
theorem subscriptions_del_removes (c : tSubscriptions) (id : Int)
    (hwf : ∀ e ∈ c.elems, wf_stack e.watchlist) (hex : ∃ e ∈ c.elems, e.id = id) :
    ∃ (k : Nat) (c' : tSubscriptions),
      subscriptions_find c id = (k : Int) ∧
      subscriptions_del c id = some (E_SUCCESS, c') ∧
      c'.elems = c.elems.eraseIdx k ∧
      (∀ j, j < k → c'.elems[j]? = c.elems[j]?) ∧
      (∀ j, k ≤ j → c'.elems[j]? = c.elems[j + 1]?) ∧
      c'.count = c.count - 1 ∧
      (c'.count = 0 → c' = (subscriptions_init c).2) := by
  obtain ⟨k, hk, hlt, _, _, hdel⟩ := subscriptions_del_found c id hwf hex
  refine ⟨k, { elems := c.elems.eraseIdx k }, hk, hdel, rfl, ?_, ?_, ?_, ?_⟩
  · intro j hj
    simp only [List.getElem?_eraseIdx, if_pos hj]
  · intro j hj
    simp only [List.getElem?_eraseIdx, if_neg (Nat.not_lt.mpr hj)]
  · simp only [tSubscriptions.count, List.length_eraseIdx, if_pos hlt]
    omega
  · intro h0
    simp only [tSubscriptions.count] at h0
    have : c.elems.eraseIdx k = [] := List.length_eq_zero.mp (by exact_mod_cast h0)
    simp [subscriptions_init, this]

/-- Witness of C4: deleting id 4 from the table `sub_A`, `sub_D`, `sub_E` leaves
`sub_A`, `sub_E`. -/
theorem subscriptions_del_removes_witness :
    subscriptions_del data_ADE 4 = some (E_SUCCESS, { elems := [sub_A, sub_E] }) := by
  obtain ⟨k, c', hk, hdel, helems, _⟩ :=
    subscriptions_del_removes data_ADE 4 (by decide) (by decide)
  have hk1 : k = 1 := by
    have h : subscriptions_find data_ADE 4 = 1 := by decide
    rw [h] at hk
    exact_mod_cast hk.symm
  subst hk1
  have hc' : c' = { elems := [sub_A, sub_E] } := by
    cases c' with
    | mk elems => simp only at helems; rw [helems]; rfl
  rw [hdel, hc']

/-- C5, as stated, fails: `sub_C` carries the id of `sub_A`; it is accepted next
to `sub_A`, the deletion by that id removes `sub_A`, and the id is still found
(at position 0) afterwards. -/
theorem subscriptions_add_then_del_counterexample :
    subscriptions_add data_A people_AB sub_C
        = some (E_SUCCESS, { elems := [sub_A, sub_C] }) ∧
      subscriptions_del { elems := [sub_A, sub_C] } sub_C.id
        = some (E_SUCCESS, { elems := [sub_C] }) ∧
      subscriptions_find { elems := [sub_C] } sub_C.id = 0 ∧
      subscriptions_find { elems := [sub_C] } sub_C.id ≠ -1 := by
  decide

/-- C5, amended: on a table whose watchlists satisfy the count invariant, after a
successful `subscriptions_add` of a subscription followed by `subscriptions_del`
on its id, the deletion succeeds and the length is the one before the add;
`subscriptions_find` for that id then returns -1 exactly when no cell of the
original table carried that id, in which case the table is the original one. -/
theorem subscriptions_add_then_del (c c' : tSubscriptions) (p : tPeople) (s : tSubscription)
    (hwf : ∀ e ∈ c.elems, wf_stack e.watchlist)
    (hadd : subscriptions_add c p s = some (E_SUCCESS, c')) :
    ∃ c'', subscriptions_del c' s.id = some (E_SUCCESS, c'') ∧
      subscriptions_len c'' = subscriptions_len c ∧
      (subscriptions_find c'' s.id = -1 ↔ ∀ e ∈ c.elems, e.id ≠ s.id) ∧
      ((∀ e ∈ c.elems, e.id ≠ s.id) → c'' = c) := by
  obtain ⟨_, _, e, he, hc'⟩ := subscriptions_add_success c c' p s hadd
  have heid : e.id = s.id := (subscription_cpy_fields default s e he).1
  have hewf : wf_stack e.watchlist := subscription_cpy_result_wf default s e he
  subst hc'
  have hwf' : ∀ x ∈ c.elems ++ [e], wf_stack x.watchlist := by
    intro x hx
    rcases List.mem_append.mp hx with h | h
    · exact hwf x h
    · simp at h; rw [h]; exact hewf
  obtain ⟨k, _, hlt, ⟨x, hx, hxid⟩, hmin, hdel⟩ :=
    subscriptions_del_found { elems := c.elems ++ [e] } s.id hwf' ⟨e, by simp, heid⟩
  simp only [List.length_append, List.length_singleton] at hlt
  have hfresh : (∀ y ∈ c.elems, y.id ≠ s.id) → (c.elems ++ [e]).eraseIdx k = c.elems := by
    intro hno
    have hk : k = c.elems.length := by
      by_contra hne
      have hk' : k < c.elems.length := by omega
      rw [List.getElem?_append_left hk', List.getElem?_eq_getElem hk'] at hx
      cases hx
      exact hno _ (List.getElem_mem _) hxid
    rw [hk, List.eraseIdx_append_of_length_le (Nat.le_refl _)]
    simp
  refine ⟨{ elems := (c.elems ++ [e]).eraseIdx k }, hdel, ?_, ?_, ?_⟩
  · simp only [subscriptions_len, tSubscriptions.count, List.length_eraseIdx,
      List.length_append, List.length_singleton, if_pos hlt]
    omega
  · constructor
    · intro hfind y hy hyid
      have hneg := (subscriptions_find_neg_iff { elems := (c.elems ++ [e]).eraseIdx k } s.id).mp
        (by rw [hfind]; decide)
      have hk' : k < c.elems.length := by
        obtain ⟨j, hj, hjy⟩ := List.getElem_of_mem hy
        by_contra hge
        have : j < k := by omega
        refine hmin j this y ?_ hyid
        rw [List.getElem?_append_left hj, List.getElem?_eq_getElem hj, hjy]
      refine hneg e ?_ heid
      simp only
      rw [List.eraseIdx_append_of_lt_length hk']
      simp
    · intro hno
      simp only [hfresh hno]
      have := (subscriptions_find_neg_iff c s.id).mpr hno
      unfold subscriptions_find at this ⊢
      rw [subscriptions_find_from_none c.elems s.id 0 hno]
  · intro hno
    rw [hfresh hno]

/-- Witness of C5 (amended): `sub_E` is added to the table holding `sub_A` and
deleted again. -/
theorem subscriptions_add_then_del_witness :
    ∃ c'', subscriptions_del { elems := [sub_A, sub_E] } sub_E.id = some (E_SUCCESS, c'') ∧
      subscriptions_len c'' = subscriptions_len data_A ∧
      (subscriptions_find c'' sub_E.id = -1 ↔ ∀ e ∈ data_A.elems, e.id ≠ sub_E.id) ∧
      ((∀ e ∈ data_A.elems, e.id ≠ sub_E.id) → c'' = data_A) :=
  subscriptions_add_then_del data_A { elems := [sub_A, sub_E] } people_AB sub_E
    (by decide) (by decide)

/-- C6: when no cell carries the given id, `subscriptions_del` returns
`E_SUBSCRIPTION_NOT_FOUND` and the table (count, order, every cell) is the one it
was given. -/
theorem subscriptions_del_not_found (c : tSubscriptions) (id : Int)
    (h : ∀ e ∈ c.elems, e.id ≠ id) :
    subscriptions_del c id = some (E_SUBSCRIPTION_NOT_FOUND, c) := by
  have hneg : subscriptions_find c id < 0 := (subscriptions_find_neg_iff c id).mpr h
  unfold subscriptions_del
  simp only [if_pos hneg]

/-- Witness of C6: no cell of `sub_A`, `sub_D`, `sub_E` has id 9. -/
theorem subscriptions_del_not_found_witness :
    subscriptions_del data_ADE 9 = some (E_SUBSCRIPTION_NOT_FOUND, data_ADE) :=
  subscriptions_del_not_found data_ADE 9 (by decide)

/-! ## `subscription_cpy` and `subscription_equal` -/

/-- C7: for a source whose watchlist count is its number of nodes,
`subscription_cpy` produces a destination with the source's id, document, dates,
plan, price and number of devices, and a watchlist with the source's count whose
films from top to bottom are the source's films from top to bottom, whatever the
destination held before. -/
theorem subscription_cpy_copies (destination source : tSubscription)
    (h : wf_stack source.watchlist) :
    ∃ r, subscription_cpy destination source = some r ∧
      r.id = source.id ∧ r.document = source.document ∧
      r.start_date = source.start_date ∧ r.end_date = source.end_date ∧
      r.plan = source.plan ∧ r.price = source.price ∧
      r.numDevices = source.numDevices ∧
      r.watchlist.count = source.watchlist.count ∧
      r.watchlist.top = source.watchlist.top :=
  ⟨source, subscription_cpy_wf destination source h,
    rfl, rfl, rfl, rfl, rfl, rfl, rfl, rfl, rfl⟩

/-- Witness of C7: X, Y, Z were pushed in that order on the source; the copy,
made over a destination that held films, reads Z, Y, X from the top. -/
theorem subscription_cpy_copies_witness :
    sub_A.watchlist
        = filmstack_push (filmstack_push (filmstack_push (filmstack_init default) film_X)
            film_Y) film_Z ∧
      ∃ r, subscription_cpy sub_E sub_A = some r ∧
        r.watchlist.top = [film_Z, film_Y, film_X] ∧ r.watchlist.count = 3 := by
  obtain ⟨r, hr, _, _, _, _, _, _, _, hcount, htop⟩ :=
    subscription_cpy_copies sub_E sub_A (by decide)
  exact ⟨rfl, r, hr, by rw [htop]; rfl, by rw [hcount]; rfl⟩

/-- C8: `subscription_equal` answers true exactly when the two subscriptions have
the same document, start date, end date, plan, price and number of devices;
replacing the id or the watchlist of either argument never changes the answer. -/
theorem subscription_equal_spec (a b : tSubscription) :
    (subscription_equal a b = true ↔
      (a.document = b.document ∧ a.start_date = b.start_date ∧ a.end_date = b.end_date ∧
        a.plan = b.plan ∧ a.price = b.price ∧ a.numDevices = b.numDevices)) ∧
    ∀ (i j : Int) (w v : tFilmstack),
      subscription_equal { a with id := i, watchlist := w } { b with id := j, watchlist := v }
        = subscription_equal a b := by
  refine ⟨subscription_equal_iff a b, fun i j w v => ?_⟩
  simp [subscription_equal]

/-! ## Loyalty tier -/

theorem round_half_even_intCast (n : ℤ) : round_half_even (n : ℚ) = n := by
  unfold round_half_even
  simp

theorem round_half_even_err (y : ℚ) : |(round_half_even y : ℚ) - y| ≤ 1 / 2 := by
  have h1 := Int.floor_le y
  have h2 := Int.lt_floor_add_one y
  unfold round_half_even
  rw [abs_le]
  split_ifs <;> push_cast <;> constructor <;> linarith

theorem float_round_of_quotient (prec : Nat) (emin : Int) (x : ℚ) (n : ℤ)
    (h : x / 2 ^ max (Int.log 2 |x| - ((prec : Int) - 1)) emin = n) :
    float_round prec emin x = x := by
  have hq : (2 : ℚ) ^ max (Int.log 2 |x| - ((prec : Int) - 1)) emin ≠ 0 :=
    zpow_ne_zero _ (by norm_num)
  unfold float_round
  rw [h, round_half_even_intCast, ← h]
  field_simp

theorem float_round_err (prec : Nat) (emin : Int) (x : ℚ) :
    |float_round prec emin x - x|
      ≤ 2 ^ max (Int.log 2 |x| - ((prec : Int) - 1)) emin / 2 := by
  have hq : (0 : ℚ) < 2 ^ max (Int.log 2 |x| - ((prec : Int) - 1)) emin :=
    zpow_pos (by norm_num) _
  have herr := round_half_even_err (x / 2 ^ max (Int.log 2 |x| - ((prec : Int) - 1)) emin)
  unfold float_round
  have hx : x = x / 2 ^ max (Int.log 2 |x| - ((prec : Int) - 1)) emin
      * 2 ^ max (Int.log 2 |x| - ((prec : Int) - 1)) emin := by
    field_simp
  have hsub : (round_half_even (x / 2 ^ max (Int.log 2 |x| - ((prec : Int) - 1)) emin) : ℚ)
        * 2 ^ max (Int.log 2 |x| - ((prec : Int) - 1)) emin - x
      = ((round_half_even (x / 2 ^ max (Int.log 2 |x| - ((prec : Int) - 1)) emin) : ℚ)
          - x / 2 ^ max (Int.log 2 |x| - ((prec : Int) - 1)) emin)
        * 2 ^ max (Int.log 2 |x| - ((prec : Int) - 1)) emin := by
    rw [sub_mul, ← hx]
  rw [hsub, abs_mul, abs_of_pos hq]
  calc _ ≤ 1 / 2 * 2 ^ max (Int.log 2 |x| - ((prec : Int) - 1)) emin :=
        mul_le_mul_of_nonneg_right herr (le_of_lt hq)
    _ = _ := by ring

/-- The binary exponent of a rational below `2 ^ k` in magnitude is below `k`. -/
theorem log_abs_le (x : ℚ) (k : ℕ) (hk : 1 ≤ k) (h : |x| < 2 ^ k) :
    Int.log 2 |x| ≤ (k : ℤ) - 1 := by
  by_cases h0 : |x| = 0
  · rw [h0, Int.log_zero_right]
    omega
  · have hpos : 0 < |x| := lt_of_le_of_ne (abs_nonneg x) (Ne.symm h0)
    have := (Int.lt_zpow_iff_log_lt (R := ℚ) (b := 2) (by norm_num) (x := (k : ℤ)) hpos).mp
      (by rw [zpow_natCast]; exact_mod_cast h)
    omega

/-- An integer below `2 ^ prec` in magnitude is a value of the format. -/
theorem float_round_intCast (prec : Nat) (emin : Int) (n : ℤ) (hprec : 1 ≤ prec)
    (hemin : emin ≤ 0) (hn : |(n : ℚ)| < 2 ^ prec) : float_round prec emin n = n := by
  have hlog := log_abs_le (n : ℚ) prec hprec hn
  have hq : max (Int.log 2 |(n : ℚ)| - ((prec : Int) - 1)) emin ≤ 0 := max_le (by omega) hemin
  obtain ⟨k, hk⟩ : ∃ k : ℕ, max (Int.log 2 |(n : ℚ)| - ((prec : Int) - 1)) emin = -(k : ℤ) :=
    ⟨(-max (Int.log 2 |(n : ℚ)| - ((prec : Int) - 1)) emin).toNat, by omega⟩
  apply float_round_of_quotient prec emin n (n * 2 ^ k)
  rw [hk, zpow_neg, zpow_natCast]
  push_cast
  field_simp

theorem DBL_MAX_ge : (2 : ℚ) ^ 24 ≤ DBL_MAX := by
  unfold DBL_MAX
  norm_num

/-- The quotient by 500 of a natural number below `2 ^ 24`, rounded to `double`,
has the integral part of the exact quotient. -/
theorem to_double_div_500 (t : ℕ) (ht : (t : ℚ) < 2 ^ 24) :
    ∃ r, to_double ((t : ℚ) / 500) = some r ∧ 0 ≤ r ∧ ⌊r⌋ = ⌊(t : ℚ) / 500⌋ := by
  have hx0 : (0 : ℚ) ≤ (t : ℚ) / 500 := by positivity
  have hxlt : |(t : ℚ) / 500| < 2 ^ 16 := by
    rw [abs_of_nonneg hx0, div_lt_iff₀ (by norm_num)]
    have ht' : (t : ℚ) < 16777216 := by
      have h24 : ((2 : ℚ) ^ 24) = 16777216 := by norm_num
      rw [h24] at ht
      exact ht
    exact lt_of_lt_of_le ht' (by norm_num)
  have hlog := log_abs_le ((t : ℚ) / 500) 16 (by norm_num) hxlt
  have hq : max (Int.log 2 |(t : ℚ) / 500| - (((53 : ℕ) : Int) - 1)) (-1074) ≤ -37 :=
    max_le (by push_cast at hlog ⊢; omega) (by norm_num)
  have hquant : (2 : ℚ) ^ max (Int.log 2 |(t : ℚ) / 500| - (((53 : ℕ) : Int) - 1)) (-1074)
      ≤ 2 ^ (-37 : ℤ) := zpow_le_zpow_right₀ (by norm_num) hq
  have herr := float_round_err 53 (-1074) ((t : ℚ) / 500)
  have herr' : |float_round 53 (-1074) ((t : ℚ) / 500) - (t : ℚ) / 500| ≤ 2 ^ (-37 : ℤ) / 2 :=
    le_trans herr (by linarith)
  have h37 : (2 : ℚ) ^ (-37 : ℤ) / 2 < 1 / 500 := by norm_num
  rw [abs_le] at herr'
  -- the fractional part of the exact quotient is a multiple of 1 / 500
  have hfl := Int.floor_le ((t : ℚ) / 500)
  have hfl' := Int.lt_floor_add_one ((t : ℚ) / 500)
  have hj : ∃ j : ℤ, (j : ℚ) = (t : ℚ) - 500 * ⌊(t : ℚ) / 500⌋ :=
    ⟨(t : ℤ) - 500 * ⌊(t : ℚ) / 500⌋, by push_cast; ring⟩
  obtain ⟨j, hjq⟩ := hj
  have hj0 : (0 : ℚ) ≤ j := by
    rw [hjq]
    have := mul_le_mul_of_nonneg_left hfl (by norm_num : (0 : ℚ) ≤ 500)
    rw [mul_div_cancel₀ _ (by norm_num : (500 : ℚ) ≠ 0)] at this
    linarith
  have hj500 : (j : ℚ) < 500 := by
    rw [hjq]
    have := mul_lt_mul_of_pos_left hfl' (by norm_num : (0 : ℚ) < 500)
    rw [mul_div_cancel₀ _ (by norm_num : (500 : ℚ) ≠ 0)] at this
    linarith
  have hx : (t : ℚ) / 500 = ⌊(t : ℚ) / 500⌋ + (j : ℚ) / 500 := by
    rw [hjq]; field_simp; ring
  have hfloor_nonneg : (0 : ℤ) ≤ ⌊(t : ℚ) / 500⌋ := Int.floor_nonneg.mpr hx0
  have hround : float_round 53 (-1074) ((t : ℚ) / 500) - ⌊(t : ℚ) / 500⌋ < 1 ∧
      (0 : ℚ) ≤ float_round 53 (-1074) ((t : ℚ) / 500) - ⌊(t : ℚ) / 500⌋ := by
    by_cases hjz : j = 0
    · -- the quotient is an integer and is not rounded
      have hint : (t : ℚ) / 500 = ((⌊(t : ℚ) / 500⌋ : ℤ) : ℚ) := by
        rw [hx, hjz]; simp
      have habs : |((⌊(t : ℚ) / 500⌋ : ℤ) : ℚ)| < 2 ^ 53 := by
        rw [← hint]
        exact lt_trans hxlt (by norm_num)
      have := float_round_intCast 53 (-1074) ⌊(t : ℚ) / 500⌋ (by norm_num) (by norm_num) habs
      rw [← hint] at this
      rw [this, hint]
      simp
    · have hj1 : (1 : ℚ) ≤ j := by
        have : (0 : ℤ) ≤ j := by exact_mod_cast hj0
        have : (1 : ℤ) ≤ j := by omega
        exact_mod_cast this
      have hj499 : (j : ℚ) ≤ 499 := by
        have : j < 500 := by exact_mod_cast hj500
        have : j ≤ 499 := by omega
        exact_mod_cast this
      have hlo : (1 : ℚ) / 500 ≤ (j : ℚ) / 500 := by
        apply div_le_div_of_nonneg_right hj1 (by norm_num)
      have hhi : (j : ℚ) / 500 ≤ 499 / 500 := by
        apply div_le_div_of_nonneg_right hj499 (by norm_num)
      constructor <;> linarith [herr'.1, herr'.2]
  have hr0 : (0 : ℚ) ≤ float_round 53 (-1074) ((t : ℚ) / 500) := by
    have : (0 : ℚ) ≤ ⌊(t : ℚ) / 500⌋ := by exact_mod_cast hfloor_nonneg
    linarith [hround.2]
  refine ⟨float_round 53 (-1074) ((t : ℚ) / 500), ?_, hr0, ?_⟩
  · unfold to_double
    rw [if_pos]
    rw [abs_of_nonneg hr0]
    have h1 : float_round 53 (-1074) ((t : ℚ) / 500) < ⌊(t : ℚ) / 500⌋ + 1 := by
      linarith [hround.1]
    have h2 : ((⌊(t : ℚ) / 500⌋ : ℤ) : ℚ) ≤ (t : ℚ) / 500 := hfl
    have h3 : (t : ℚ) / 500 < 2 ^ 16 := by rwa [abs_of_nonneg hx0] at hxlt
    have h4 := DBL_MAX_ge
    norm_num at h3 h4 ⊢
    linarith
  · rw [Int.floor_eq_iff]
    constructor <;> linarith [hround.1, hround.2]

theorem calculate_vipLevel_loop_cons (e : tSubscription) (rest : List tSubscription)
    (document : String) (totalPrice : Option ℚ) :
    calculate_vipLevel_loop (e :: rest) document totalPrice
      = if e.document = document then
          calculate_vipLevel_loop rest document
            (float_add totalPrice (float_mul (some e.price) (to_float (monthsActive e : ℚ))))
        else calculate_vipLevel_loop rest document totalPrice := by
  have hm : (if e.end_date.day ≥ e.start_date.day then
        (e.end_date.year - e.start_date.year) * 12 + (e.end_date.month - e.start_date.month) + 1
      else (e.end_date.year - e.start_date.year) * 12
        + (e.end_date.month - e.start_date.month)) = monthsActive e := by
    unfold monthsActive
    split_ifs <;> ring
  by_cases h : e.document = document
  · have h0 : strcmp e.document document = 0 := (strcmp_eq_zero _ _).mpr h
    rw [calculate_vipLevel_loop, if_pos h0, if_pos h]
    simp only [hm]
  · have h0 : ¬ strcmp e.document document = 0 := fun hc => h ((strcmp_eq_zero _ _).mp hc)
    rw [calculate_vipLevel_loop, if_neg h0, if_neg h]

/-- The tier computed from an accumulator that holds a natural number below
`2 ^ 24` is the floor of its quotient by 500. -/
theorem float_to_int_div_500 (t : ℕ) (ht : (t : ℚ) < 2 ^ 24) :
    float_to_int (double_div_500 (some (t : ℚ))) = some ⌊(t : ℚ) / 500⌋ := by
  obtain ⟨r, hr, hr0, hfloor⟩ := to_double_div_500 t ht
  have h0 : (0 : ℤ) ≤ ⌊(t : ℚ) / 500⌋ := Int.floor_nonneg.mpr (by positivity)
  have hle : ⌊(t : ℚ) / 500⌋ ≤ INT_MAX := by
    have h1 : (⌊(t : ℚ) / 500⌋ : ℚ) ≤ (t : ℚ) / 500 := Int.floor_le _
    have h2 : (t : ℚ) / 500 ≤ t := by
      rw [div_le_iff₀ (by norm_num)]
      nlinarith [(Nat.cast_nonneg t : (0 : ℚ) ≤ t)]
    have h3 : (⌊(t : ℚ) / 500⌋ : ℚ) < 2 ^ 24 := by linarith
    have h4 : ⌊(t : ℚ) / 500⌋ < 2 ^ 24 := by exact_mod_cast h3
    unfold INT_MAX
    norm_num at h4 ⊢
    omega
  unfold double_div_500 float_to_int
  simp only [hr, if_pos hr0, hfloor]
  rw [if_pos ⟨by unfold INT_MIN; omega, hle⟩]

theorem calculate_vipLevel_loop_no_match (l : List tSubscription) (document : String)
    (totalPrice : Option ℚ) (h : ∀ e ∈ l, e.document ≠ document) :
    calculate_vipLevel_loop l document totalPrice = totalPrice := by
  induction l with
  | nil => rfl
  | cons e rest ih =>
    rw [calculate_vipLevel_loop_cons, if_neg (h e (List.mem_cons_self _ _))]
    exact ih (fun x hx => h x (List.mem_cons_of_mem _ hx))

/-- Without a subscription of the document the tier is 0. -/
theorem calculate_vipLevel_no_match (data : tSubscriptions) (document : String)
    (h : ∀ e ∈ data.elems, e.document ≠ document) : calculate_vipLevel data document = 0 := by
  unfold calculate_vipLevel
  rw [calculate_vipLevel_loop_no_match _ _ _ h]
  have := float_to_int_div_500 0 (by norm_num)
  simp only [Nat.cast_zero, zero_div, Int.floor_zero] at this
  rw [this]

theorem update_vipLevel_loop_eq (data : tSubscriptions) (l : List tPerson) :
    update_vipLevel_loop data l
      = l.map fun person =>
          { person with vipLevel := calculate_vipLevel data person.document } := by
  induction l with
  | nil => rfl
  | cons person rest ih =>
    rw [update_vipLevel_loop, ih]
    by_cases h : data.count = 0 <;> simp [h]

/-- C10: `update_vipLevel` returns `E_SUCCESS`; the persons are the same, in the
same order, each with its tier replaced by `calculate_vipLevel` of its document
and every other field untouched; with an empty table of subscriptions every
tier is 0; the table of subscriptions is left as it was. -/
theorem update_vipLevel_spec (data : tSubscriptions) (people : tPeople) :
    (update_vipLevel data people).1 = E_SUCCESS ∧
      (update_vipLevel data people).2.1 = data ∧
      (update_vipLevel data people).2.2.elems
        = people.elems.map (fun person =>
            { person with vipLevel := calculate_vipLevel data person.document }) ∧
      (data.count = 0 →
        ∀ person ∈ (update_vipLevel data people).2.2.elems, person.vipLevel = 0) := by
  refine ⟨rfl, rfl, update_vipLevel_loop_eq data people.elems, ?_⟩
  intro h0 person hperson
  have hnil : data.elems = [] := by
    simp only [tSubscriptions.count] at h0
    exact List.length_eq_zero.mp (by exact_mod_cast h0)
  simp only [update_vipLevel, update_vipLevel_loop_eq, List.mem_map] at hperson
  obtain ⟨q, _, hq⟩ := hperson
  rw [← hq]
  exact calculate_vipLevel_no_match data _ (by rw [hnil]; simp)

/-- Witness of C10: with the empty table both persons of `people_AB`, whose
stored tier was 7, end with tier 0. -/
theorem update_vipLevel_spec_witness :
    data_empty.count = 0 ∧
      ∀ person ∈ (update_vipLevel data_empty people_AB).2.2.elems, person.vipLevel = 0 :=
  ⟨by decide, (update_vipLevel_spec data_empty people_AB).2.2.2 (by decide)⟩

/-! ## The count invariant is kept by the table operations -/

/-- Every cell of a table written by `subscriptions_add` satisfies the count
invariant when the cells of the original table do. -/
theorem subscriptions_add_keeps_wf (c c' : tSubscriptions) (p : tPeople) (s : tSubscription)
    (err : tApiError) (hwf : ∀ e ∈ c.elems, wf_stack e.watchlist)
    (h : subscriptions_add c p s = some (err, c')) :
    ∀ e ∈ c'.elems, wf_stack e.watchlist := by
  unfold subscriptions_add at h
  by_cases hs : subscriptions_add_scan c.elems s = true
  · simp only [hs, if_true, Option.some.injEq, Prod.mk.injEq] at h
    rw [← h.2]; exact hwf
  · by_cases hp : people_find p s.document < 0
    · rw [if_neg hs, if_pos hp] at h
      simp only [Option.some.injEq, Prod.mk.injEq] at h
      rw [← h.2]; exact hwf
    · rw [if_neg hs, if_neg hp] at h
      cases he : subscription_cpy default s with
      | none => simp [he] at h
      | some x =>
        simp only [he, Option.some.injEq, Prod.mk.injEq] at h
        rw [← h.2]
        intro e hmem
        rcases List.mem_append.mp hmem with hm | hm
        · exact hwf e hm
        · simp at hm; rw [hm]; exact subscription_cpy_result_wf default s x he

/-- On a table whose cells satisfy the count invariant `subscriptions_del` is
defined, and the cells it leaves satisfy the invariant. -/
theorem subscriptions_del_keeps_wf (c : tSubscriptions) (id : Int)
    (hwf : ∀ e ∈ c.elems, wf_stack e.watchlist) :
    ∃ err c', subscriptions_del c id = some (err, c') ∧
      ∀ e ∈ c'.elems, wf_stack e.watchlist := by
  by_cases hex : ∃ e ∈ c.elems, e.id = id
  · obtain ⟨k, _, _, _, _, hdel⟩ := subscriptions_del_found c id hwf hex
    refine ⟨E_SUCCESS, _, hdel, fun e he => hwf e ?_⟩
    exact (List.eraseIdx_sublist c.elems k).subset he
  · refine ⟨E_SUBSCRIPTION_NOT_FOUND, c, ?_, hwf⟩
    have hneg : subscriptions_find c id < 0 :=
      (subscriptions_find_neg_iff c id).mpr (fun e he heid => hex ⟨e, he, heid⟩)
    unfold subscriptions_del
    simp only [if_pos hneg]

/-! ## `popularFilm_find`: the working set -/

theorem date_cmp_self (a : tDate) : date_cmp a a = 0 := (date_cmp_eq_zero a a).mpr rfl

theorem date_cmp_pos_iff (a b : tDate) :
    date_cmp a b > 0 ↔
      (a.year > b.year ∨ (a.year = b.year ∧
        (a.month > b.month ∨ (a.month = b.month ∧ a.day > b.day)))) := by
  unfold date_cmp
  split_ifs <;> omega

theorem date_cmp_neg_iff (a b : tDate) :
    date_cmp a b < 0 ↔
      (a.year < b.year ∨ (a.year = b.year ∧
        (a.month < b.month ∨ (a.month = b.month ∧ a.day < b.day)))) := by
  unfold date_cmp
  split_ifs <;> omega

theorem date_cmp_lt_of_le_of_gt (x m f : tDate) (h1 : date_cmp x m ≤ 0)
    (h2 : date_cmp f m > 0) : date_cmp x f < 0 := by
  have h1' : ¬ date_cmp x m > 0 := by omega
  rw [date_cmp_pos_iff] at h1' h2
  rw [date_cmp_neg_iff]
  omega

theorem popularFilm_find_match_spec (equals : tFilm → tFilm → Bool) (cur : tFilm)
    (ws : List (tFilm × Int)) :
    ((popularFilm_find_match equals cur ws).1 = false ∧
        (∀ x ∈ ws, equals x.1 cur = false) ∧
        (popularFilm_find_match equals cur ws).2 = ws) ∨
    (∃ p f n q, ws = p ++ (f, n) :: q ∧ (∀ x ∈ p, equals x.1 cur = false) ∧
        equals f cur = true ∧ (popularFilm_find_match equals cur ws).1 = true ∧
        (popularFilm_find_match equals cur ws).2
          = p ++ ((if date_cmp cur.release f.release > 0 then cur else f), n + 1) :: q) := by
  induction ws with
  | nil => left; simp [popularFilm_find_match]
  | cons e rest ih =>
    obtain ⟨f, n⟩ := e
    by_cases h : equals f cur = true
    · right
      exact ⟨[], f, n, rest, rfl, by simp, h, by simp [popularFilm_find_match, h],
        by simp [popularFilm_find_match, h]⟩
    · have hf : equals f cur = false := by simpa using h
      rcases ih with ⟨h1, h2, h3⟩ | ⟨p, g, m, q, hws, hp, hg, h1, h2⟩
      · left
        refine ⟨by simp [popularFilm_find_match, hf, h1], ?_,
          by simp [popularFilm_find_match, hf, h3]⟩
        intro x hx
        rcases List.mem_cons.mp hx with rfl | hx
        · exact hf
        · exact h2 x hx
      · right
        refine ⟨(f, n) :: p, g, m, q, by simp [hws], ?_, hg,
          by simp [popularFilm_find_match, hf, h1], by simp [popularFilm_find_match, hf, h2]⟩
        intro x hx
        rcases List.mem_cons.mp hx with rfl | hx
        · exact hf
        · exact hp x hx

theorem popularFilm_find_visit_spec (equals : tFilm → tFilm → Bool) (cur : tFilm)
    (ws : List (tFilm × Int)) :
    ((∀ x ∈ ws, equals x.1 cur = false) ∧
        popularFilm_find_visit equals ws cur
          = if ws.length < 10 then some (ws ++ [(cur, 1)]) else none) ∨
    (∃ p f n q, ws = p ++ (f, n) :: q ∧ (∀ x ∈ p, equals x.1 cur = false) ∧
        equals f cur = true ∧
        popularFilm_find_visit equals ws cur
          = some (p ++ ((if date_cmp cur.release f.release > 0 then cur else f), n + 1) :: q)) := by
  rcases popularFilm_find_match_spec equals cur ws with ⟨h1, h2, _⟩ | ⟨p, f, n, q, hws, hp, hf, h1, h2⟩
  · left
    refine ⟨h2, ?_⟩
    unfold popularFilm_find_visit
    simp [h1]
  · right
    refine ⟨p, f, n, q, hws, hp, hf, ?_⟩
    unfold popularFilm_find_visit
    simp [h1, h2]

theorem popularFilm_find_stack_append (equals : tFilm → tFilm → Bool) (l1 l2 : List tFilm)
    (ws : List (tFilm × Int)) :
    popularFilm_find_stack equals (l1 ++ l2) ws
      = (popularFilm_find_stack equals l1 ws).bind (popularFilm_find_stack equals l2) := by
  induction l1 generalizing ws with
  | nil => simp [popularFilm_find_stack]
  | cons cur next ih =>
    simp only [List.cons_append, popularFilm_find_stack]
    cases popularFilm_find_visit equals ws cur with
    | none => simp
    | some ws1 => simp [ih]

theorem popularFilm_find_scan_eq (equals : tFilm → tFilm → Bool) (elems : List tSubscription)
    (ws : List (tFilm × Int)) :
    popularFilm_find_scan equals elems ws
      = popularFilm_find_stack equals (all_films elems) ws := by
  induction elems generalizing ws with
  | nil => simp [popularFilm_find_scan, all_films, popularFilm_find_stack]
  | cons e rest ih =>
    simp only [popularFilm_find_scan, all_films, popularFilm_find_stack_append]
    cases popularFilm_find_stack equals e.watchlist.top ws with
    | none => simp
    | some ws1 => simp [ih]

theorem distinct_films_snoc (equals : tFilm → tFilm → Bool) (films : List tFilm) (cur : tFilm) :
    distinct_films equals (films ++ [cur])
      = distinct_films_step equals (distinct_films equals films) cur := by
  simp [distinct_films]

theorem distinct_films_step_length_le (equals : tFilm → tFilm → Bool) (kept : List tFilm)
    (film : tFilm) : kept.length ≤ (distinct_films_step equals kept film).length := by
  unfold distinct_films_step
  split <;> simp

theorem distinct_films_foldl_length_le (equals : tFilm → tFilm → Bool) (l kept : List tFilm) :
    kept.length ≤ (l.foldl (distinct_films_step equals) kept).length := by
  induction l generalizing kept with
  | nil => simp
  | cons a l ih =>
    simp only [List.foldl_cons]
    exact Nat.le_trans (distinct_films_step_length_le equals kept a) (ih _)

theorem distinct_films_append_length_le (equals : tFilm → tFilm → Bool) (l1 l2 : List tFilm) :
    (distinct_films equals l1).length ≤ (distinct_films equals (l1 ++ l2)).length := by
  unfold distinct_films
  rw [List.foldl_append]
  exact distinct_films_foldl_length_le equals l2 _

theorem distinct_films_mem (equals : tFilm → tFilm → Bool) (films : List tFilm) :
    ∀ d ∈ distinct_films equals films, d ∈ films := by
  induction films using List.reverseRecOn with
  | nil => simp [distinct_films]
  | append_singleton l a ih =>
    intro d hd
    rw [distinct_films_snoc] at hd
    unfold distinct_films_step at hd
    split at hd
    · exact List.mem_append_left _ (ih d hd)
    · rcases List.mem_append.mp hd with h | h
      · exact List.mem_append_left _ (ih d h)
      · exact List.mem_append_right _ h

theorem distinct_films_cover (equals : tFilm → tFilm → Bool) (hrefl : ∀ a, equals a a = true)
    (films : List tFilm) :
    ∀ g ∈ films, ∃ d ∈ distinct_films equals films, equals d g = true := by
  induction films using List.reverseRecOn with
  | nil => simp
  | append_singleton l a ih =>
    intro g hg
    rw [distinct_films_snoc]
    unfold distinct_films_step
    by_cases hany : (distinct_films equals l).any (fun d => equals d a) = true
    · rw [if_pos hany]
      rcases List.mem_append.mp hg with h | h
      · exact ih g h
      · simp only [List.mem_singleton] at h
        subst h
        simpa using hany
    · rw [if_neg hany]
      rcases List.mem_append.mp hg with h | h
      · obtain ⟨d, hd, hdg⟩ := ih g h
        exact ⟨d, List.mem_append_left _ hd, hdg⟩
      · simp only [List.mem_singleton] at h
        subst h
        exact ⟨g, by simp, hrefl g⟩

theorem occurrences_snoc (equals : tFilm → tFilm → Bool) (f cur : tFilm) (pre : List tFilm) :
    occurrences equals f (pre ++ [cur])
      = occurrences equals f pre + (if equals f cur = true then 1 else 0) := by
  unfold occurrences
  rw [List.filter_append]
  by_cases h : equals f cur = true <;> simp [h]

theorem occurrences_congr (equals : tFilm → tFilm → Bool) (f f' : tFilm) (films : List tFilm)
    (h : ∀ g, equals f' g = equals f g) :
    occurrences equals f' films = occurrences equals f films := by
  unfold occurrences
  simp [h]

/-- The films of the working set stay among the scanned ones: the entry of the
distinct list that equals the current film exists exactly when a working-set
entry does. -/
theorem working_set_inv_found_iff (equals : tFilm → tFilm → Bool)
    (heq : film_equivalence equals) (pre : List tFilm) (ws : List (tFilm × Int)) (cur : tFilm)
    (hinv : working_set_inv equals pre ws) :
    (distinct_films equals pre).any (fun d => equals d cur) = true
      ↔ ∃ x ∈ ws, equals x.1 cur = true := by
  obtain ⟨hrefl, _, htrans⟩ := heq
  obtain ⟨_, _, I3, I4, _, _⟩ := hinv
  rw [List.any_eq_true]
  constructor
  · rintro ⟨d, hd, hdc⟩
    obtain ⟨x, hx, hxd⟩ := I4 d (distinct_films_mem equals pre d hd)
    exact ⟨x, hx, htrans _ _ _ hxd hdc⟩
  · rintro ⟨x, hx, hxc⟩
    obtain ⟨d, hd, hdx⟩ := distinct_films_cover equals hrefl pre x.1 (I3 x hx).1
    exact ⟨d, hd, htrans _ _ _ hdx hxc⟩

theorem working_set_inv_append (equals : tFilm → tFilm → Bool)
    (heq : film_equivalence equals) (pre : List tFilm) (ws : List (tFilm × Int)) (cur : tFilm)
    (hinv : working_set_inv equals pre ws) (hno : ∀ x ∈ ws, equals x.1 cur = false) :
    working_set_inv equals (pre ++ [cur]) (ws ++ [(cur, 1)]) := by
  have hiff := working_set_inv_found_iff equals heq pre ws cur hinv
  obtain ⟨hrefl, hsymm, htrans⟩ := heq
  obtain ⟨I1, I2, I3, I4, I5, I6⟩ := hinv
  have hfresh : ∀ g ∈ pre, equals cur g = false := by
    intro g hg
    by_contra hc
    have hc' : equals cur g = true := by simpa using hc
    obtain ⟨x, hx, hxg⟩ := I4 g hg
    have := htrans _ _ _ hxg (hsymm _ _ hc')
    rw [hno x hx] at this
    exact absurd this (by simp)
  have hstep : distinct_films equals (pre ++ [cur]) = distinct_films equals pre ++ [cur] := by
    rw [distinct_films_snoc]
    unfold distinct_films_step
    rw [if_neg]
    rw [hiff]
    rintro ⟨x, hx, hxc⟩
    rw [hno x hx] at hxc
    exact absurd hxc (by simp)
  refine ⟨?_, ?_, ?_, ?_, ?_, ?_⟩
  · rw [List.pairwise_append]
    refine ⟨I1, by simp, ?_⟩
    intro x hx y hy
    simp only [List.mem_singleton] at hy
    subst hy
    exact hno x hx
  · intro x hx
    rcases List.mem_append.mp hx with h | h
    · rw [occurrences_snoc, hno x h]
      simpa using I2 x h
    · simp only [List.mem_singleton] at h
      subst h
      have h0 : occurrences equals cur pre = 0 := by
        unfold occurrences
        have : (pre.filter fun g => equals cur g) = [] := by
          rw [List.filter_eq_nil_iff]
          intro g hg
          simpa using hfresh g hg
        rw [this]; rfl
      rw [occurrences_snoc, h0, hrefl cur]
      simp
  · intro x hx
    rcases List.mem_append.mp hx with h | h
    · refine ⟨List.mem_append_left _ (I3 x h).1, ?_⟩
      intro g hg hxg
      rcases List.mem_append.mp hg with hg | hg
      · exact (I3 x h).2 g hg hxg
      · simp only [List.mem_singleton] at hg
        subst hg
        rw [hno x h] at hxg
        exact absurd hxg (by simp)
    · simp only [List.mem_singleton] at h
      subst h
      refine ⟨by simp, ?_⟩
      intro g hg hcg
      rcases List.mem_append.mp hg with hg | hg
      · rw [hfresh g hg] at hcg
        exact absurd hcg (by simp)
      · simp only [List.mem_singleton] at hg
        subst hg
        rw [date_cmp_self]
  · intro g hg
    rcases List.mem_append.mp hg with hg | hg
    · obtain ⟨x, hx, hxg⟩ := I4 g hg
      exact ⟨x, List.mem_append_left _ hx, hxg⟩
    · simp only [List.mem_singleton] at hg
      subst hg
      exact ⟨(g, 1), by simp, hrefl g⟩
  · rw [hstep]
    simp [I5]
  · simp only [List.map_append, List.sum_append, List.map_cons, List.map_nil, List.sum_cons,
      List.sum_nil, List.length_append, List.length_singleton, I6]
    push_cast
    ring

theorem working_set_inv_replace (equals : tFilm → tFilm → Bool)
    (heq : film_equivalence equals) (pre : List tFilm) (p q : List (tFilm × Int))
    (cur f f' : tFilm) (n : Int)
    (hinv : working_set_inv equals pre (p ++ (f, n) :: q))
    (hp : ∀ x ∈ p, equals x.1 cur = false) (hf : equals f cur = true)
    (hff' : equals f f' = true) (hmem : f' ∈ pre ++ [cur])
    (hmax : ∀ g ∈ pre ++ [cur], equals f g = true → date_cmp g.release f'.release ≤ 0) :
    working_set_inv equals (pre ++ [cur]) (p ++ (f', n + 1) :: q) := by
  have hiff := working_set_inv_found_iff equals heq pre _ cur hinv
  obtain ⟨hrefl, hsymm, htrans⟩ := heq
  obtain ⟨I1, I2, I3, I4, I5, I6⟩ := hinv
  have hcongr : ∀ g, equals f' g = equals f g := by
    intro g
    rw [Bool.eq_iff_iff]
    exact ⟨fun h => htrans _ _ _ hff' h, fun h => htrans _ _ _ (hsymm _ _ hff') h⟩
  have hcongr_r : ∀ x, equals x f' = equals x f := by
    intro x
    rw [Bool.eq_iff_iff]
    exact ⟨fun h => htrans _ _ _ h (hsymm _ _ hff'), fun h => htrans _ _ _ h hff'⟩
  rw [List.pairwise_append, List.pairwise_cons] at I1
  obtain ⟨Pp, ⟨Hfq, Pq⟩, Hpq⟩ := I1
  have hq : ∀ x ∈ q, equals x.1 cur = false := by
    intro x hx
    by_contra hc
    have hc' : equals x.1 cur = true := by simpa using hc
    have h1 : equals f x.1 = true := hsymm _ _ (htrans _ _ _ hc' (hsymm _ _ hf))
    rw [Hfq x hx] at h1
    exact absurd h1 (by simp)
  have hstep : distinct_films equals (pre ++ [cur]) = distinct_films equals pre := by
    rw [distinct_films_snoc]
    unfold distinct_films_step
    rw [if_pos]
    rw [hiff]
    exact ⟨(f, n), by simp, hf⟩
  have hother : ∀ x, (x ∈ p ∨ x ∈ q) →
      x.2 = occurrences equals x.1 (pre ++ [cur]) ∧
      (x.1 ∈ pre ++ [cur] ∧
        ∀ g ∈ pre ++ [cur], equals x.1 g = true → date_cmp g.release x.1.release ≤ 0) := by
    intro x hx
    have hxc : equals x.1 cur = false := by
      rcases hx with h | h
      · exact hp x h
      · exact hq x h
    have hxws : x ∈ p ++ (f, n) :: q := by
      rcases hx with h | h
      · exact List.mem_append_left _ h
      · exact List.mem_append_right _ (List.mem_cons_of_mem _ h)
    refine ⟨?_, List.mem_append_left _ (I3 x hxws).1, ?_⟩
    · rw [occurrences_snoc, hxc]
      simpa using I2 x hxws
    · intro g hg hxg
      rcases List.mem_append.mp hg with hg | hg
      · exact (I3 x hxws).2 g hg hxg
      · simp only [List.mem_singleton] at hg
        subst hg
        rw [hxc] at hxg
        exact absurd hxg (by simp)
  have hnew : n + 1 = occurrences equals f' (pre ++ [cur]) := by
    rw [occurrences_snoc, hcongr cur, hf, occurrences_congr equals f f' pre hcongr,
      ← I2 (f, n) (by simp)]
    simp
  refine ⟨?_, ?_, ?_, ?_, ?_, ?_⟩
  · rw [List.pairwise_append, List.pairwise_cons]
    refine ⟨Pp, ⟨fun y hy => by show equals f' y.1 = false; rw [hcongr]; exact Hfq y hy, Pq⟩, ?_⟩
    intro x hx y hy
    rcases List.mem_cons.mp hy with h | h
    · subst h
      show equals x.1 f' = false
      rw [hcongr_r]
      exact Hpq x hx (f, n) (List.mem_cons_self _ _)
    · exact Hpq x hx y (List.mem_cons_of_mem _ h)
  · intro x hx
    rcases List.mem_append.mp hx with h | h
    · exact (hother x (Or.inl h)).1
    · rcases List.mem_cons.mp h with h | h
      · subst h; exact hnew
      · exact (hother x (Or.inr h)).1
  · intro x hx
    rcases List.mem_append.mp hx with h | h
    · exact (hother x (Or.inl h)).2
    · rcases List.mem_cons.mp h with h | h
      · subst h
        refine ⟨hmem, fun g hg hfg => hmax g hg ?_⟩
        rw [← hcongr]; exact hfg
      · exact (hother x (Or.inr h)).2
  · intro g hg
    rcases List.mem_append.mp hg with hg | hg
    · obtain ⟨x, hx, hxg⟩ := I4 g hg
      rcases List.mem_append.mp hx with h | h
      · exact ⟨x, List.mem_append_left _ h, hxg⟩
      · rcases List.mem_cons.mp h with h | h
        · subst h
          exact ⟨(f', n + 1), by simp, by show equals f' g = true; rw [hcongr]; exact hxg⟩
        · exact ⟨x, List.mem_append_right _ (List.mem_cons_of_mem _ h), hxg⟩
    · simp only [List.mem_singleton] at hg
      subst hg
      exact ⟨(f', n + 1), by simp, by show equals f' g = true; rw [hcongr]; exact hf⟩
  · rw [hstep, ← I5]
    simp
  · simp only [List.map_append, List.sum_append, List.map_cons, List.sum_cons,
      List.length_append, List.length_singleton] at I6 ⊢
    push_cast
    linarith

theorem working_set_inv_visit (equals : tFilm → tFilm → Bool)
    (heq : film_equivalence equals) (pre : List tFilm) (ws : List (tFilm × Int)) (cur : tFilm)
    (hinv : working_set_inv equals pre ws)
    (hten : (distinct_films equals (pre ++ [cur])).length ≤ 10) :
    ∃ ws', popularFilm_find_visit equals ws cur = some ws' ∧
      working_set_inv equals (pre ++ [cur]) ws' := by
  rcases popularFilm_find_visit_spec equals cur ws with
    ⟨hno, hv⟩ | ⟨p, f, n, q, hws, hp, hf, hv⟩
  · have hnew := working_set_inv_append equals heq pre ws cur hinv hno
    have hlen : ws.length < 10 := by
      have h5 := hnew.2.2.2.2.1
      simp only [List.length_append, List.length_singleton] at h5
      omega
    rw [if_pos hlen] at hv
    exact ⟨_, hv, hnew⟩
  · subst hws
    refine ⟨_, hv, ?_⟩
    obtain ⟨hrefl, hsymm, htrans⟩ := id heq
    have I3 := hinv.2.2.1 (f, n) (by simp)
    by_cases hd : date_cmp cur.release f.release > 0
    · rw [if_pos hd]
      refine working_set_inv_replace equals heq pre p q cur f cur n hinv hp hf hf (by simp) ?_
      intro g hg hfg
      rcases List.mem_append.mp hg with hg | hg
      · exact Int.le_of_lt (date_cmp_lt_of_le_of_gt _ _ _ (I3.2 g hg hfg) hd)
      · simp only [List.mem_singleton] at hg
        subst hg
        rw [date_cmp_self]
    · rw [if_neg hd]
      refine working_set_inv_replace equals heq pre p q cur f f n hinv hp hf (hrefl f)
        (List.mem_append_left _ I3.1) ?_
      intro g hg hfg
      rcases List.mem_append.mp hg with hg | hg
      · exact I3.2 g hg hfg
      · simp only [List.mem_singleton] at hg
        subst hg
        omega

theorem working_set_inv_stack (equals : tFilm → tFilm → Bool)
    (heq : film_equivalence equals) (suf pre : List tFilm) (ws : List (tFilm × Int))
    (hinv : working_set_inv equals pre ws)
    (hten : (distinct_films equals (pre ++ suf)).length ≤ 10) :
    ∃ ws', popularFilm_find_stack equals suf ws = some ws' ∧
      working_set_inv equals (pre ++ suf) ws' := by
  induction suf generalizing pre ws with
  | nil => exact ⟨ws, rfl, by simpa using hinv⟩
  | cons cur next ih =>
    have happ : pre ++ cur :: next = (pre ++ [cur]) ++ next := by simp
    rw [happ] at hten ⊢
    have h1 : (distinct_films equals (pre ++ [cur])).length ≤ 10 :=
      Nat.le_trans (distinct_films_append_length_le equals _ next) hten
    obtain ⟨ws1, hv, hinv1⟩ := working_set_inv_visit equals heq pre ws cur hinv h1
    obtain ⟨ws', hs, hinv'⟩ := ih (pre ++ [cur]) ws1 hinv1 hten
    refine ⟨ws', ?_, hinv'⟩
    rw [popularFilm_find_stack, hv]
    exact hs

theorem working_set_inv_nil (equals : tFilm → tFilm → Bool) : working_set_inv equals [] [] := by
  refine ⟨by simp, by simp, by simp, by simp, by simp [distinct_films], by simp⟩

/-- The scan of `popularFilm_find` is defined when there are at most 10 distinct
films, and its working set satisfies the invariant for all the films. -/
theorem popularFilm_find_scan_inv (equals : tFilm → tFilm → Bool)
    (heq : film_equivalence equals) (data : tSubscriptions)
    (hten : (distinct_films equals (all_films data.elems)).length ≤ 10) :
    ∃ unique, popularFilm_find_scan equals data.elems [] = some unique ∧
      working_set_inv equals (all_films data.elems) unique := by
  rw [popularFilm_find_scan_eq]
  have := working_set_inv_stack equals heq (all_films data.elems) [] []
    (working_set_inv_nil equals) (by simpa using hten)
  simpa using this

/-! ## `popularFilm_find`: the selection -/

theorem popularFilm_find_select_spec (unique : List (tFilm × Int)) (rounds i m : Nat)
    (hi : i + rounds = unique.length) (hm : m < i) (hinv : select_inv unique m i) :
    popularFilm_find_select unique rounds i m < unique.length ∧
      select_inv unique (popularFilm_find_select unique rounds i m) unique.length := by
  induction rounds generalizing i m with
  | zero =>
    have : i = unique.length := by omega
    subst this
    exact ⟨hm, hinv⟩
  | succ rounds ih =>
    have hil : i < unique.length := by omega
    have hml : m < unique.length := by omega
    cases hE : unique[i] with
    | mk film count =>
      cases hM : unique[m] with
      | mk maxFilm maxCount =>
        have hi' : unique[i]? = some (film, count) := by
          rw [List.getElem?_eq_getElem hil, hE]
        have hm' : unique[m]? = some (maxFilm, maxCount) := by
          rw [List.getElem?_eq_getElem hml, hM]
        -- the invariant when index `i` becomes the maximum
        have hnew : (∀ (j : Nat) (x : tFilm × Int), j < i → unique[j]? = some x →
            x.2 ≤ count ∧ (x.2 = count → date_cmp x.1.release film.release < 0)) →
            select_inv unique i (i + 1) := by
          intro hlt j x y hj hx hy
          rw [hi'] at hy
          cases hy
          by_cases hji : j = i
          · subst hji
            rw [hi'] at hx
            cases hx
            exact ⟨le_refl _, fun _ => by rw [date_cmp_self], fun h => absurd h (by omega)⟩
          · obtain ⟨h1, h2⟩ := hlt j x (by omega) hx
            exact ⟨h1, fun h => Int.le_of_lt (h2 h), fun _ h => h2 h⟩
        -- the invariant when the maximum stays
        have hkeep : (count ≤ maxCount ∧
            (count = maxCount → date_cmp film.release maxFilm.release ≤ 0)) →
            select_inv unique m (i + 1) := by
          intro hle j x y hj hx hy
          by_cases hji : j = i
          · subst hji
            rw [hi'] at hx
            rw [hm'] at hy
            cases hx
            cases hy
            exact ⟨hle.1, hle.2, fun h => absurd h (by omega)⟩
          · exact hinv j x y (by omega) hx hy
        rw [popularFilm_find_select, hi', hm']
        simp only
        by_cases h1 : count > maxCount
        · rw [if_pos h1]
          refine ih (i + 1) i (by omega) (by omega) (hnew ?_)
          intro j x hj hx
          obtain ⟨g1, _, _⟩ := hinv j x (maxFilm, maxCount) hj hx hm'
          simp only at g1
          exact ⟨by omega, fun h => absurd h (by omega)⟩
        · rw [if_neg h1]
          by_cases h2 : count = maxCount
          · rw [if_pos h2]
            by_cases h3 : date_cmp film.release maxFilm.release > 0
            · rw [if_pos h3]
              refine ih (i + 1) i (by omega) (by omega) (hnew ?_)
              intro j x hj hx
              obtain ⟨g1, g2, _⟩ := hinv j x (maxFilm, maxCount) hj hx hm'
              simp only at g1 g2
              exact ⟨by omega, fun h =>
                date_cmp_lt_of_le_of_gt _ _ _ (g2 (by omega)) h3⟩
            · rw [if_neg h3]
              exact ih (i + 1) m (by omega) (by omega)
                (hkeep ⟨by omega, fun _ => by omega⟩)
          · rw [if_neg h2]
            exact ih (i + 1) m (by omega) (by omega)
              (hkeep ⟨by omega, fun h => absurd h h2⟩)

theorem select_inv_init (unique : List (tFilm × Int)) : select_inv unique 0 1 := by
  intro j x y hj hx hy
  have : j = 0 := by omega
  subst this
  rw [hx] at hy
  cases hy
  exact ⟨le_refl _, fun _ => by rw [date_cmp_self], fun h => absurd h (by omega)⟩

/-- The answer of `popularFilm_find` on a working set that is not empty: the
copy of the name of the selected entry, which satisfies the selection invariant
against every entry; `strdup` being undefined on a `NULL` name, so is the answer
when the selected film has none. -/
theorem popularFilm_find_answer (equals : tFilm → tFilm → Bool) (data : tSubscriptions)
    (unique : List (tFilm × Int))
    (hscan : popularFilm_find_scan equals data.elems [] = some unique)
    (hne : unique ≠ []) (hcount : data.count ≠ 0) :
    ∃ (m : Nat) (film : tFilm) (count : Int),
      unique[m]? = some (film, count) ∧
      popularFilm_find equals data = film.name.map some ∧
      select_inv unique m unique.length := by
  have hlen : 0 < unique.length := List.length_pos.mpr hne
  obtain ⟨hm, hinv⟩ := popularFilm_find_select_spec unique (unique.length - 1) 1 0
    (by omega) (by omega) (select_inv_init unique)
  cases hE : unique[popularFilm_find_select unique (unique.length - 1) 1 0] with
  | mk film count =>
    have hget : unique[popularFilm_find_select unique (unique.length - 1) 1 0]?
        = some (film, count) := by
      rw [List.getElem?_eq_getElem hm, hE]
    refine ⟨_, film, count, hget, ?_, hinv⟩
    unfold popularFilm_find
    rw [if_neg hcount, hscan]
    simp only
    rw [if_neg (by omega), hget]
    cases hname : film.name <;> simp [hname]

theorem film_equals_equivalence : film_equivalence film_equals := by
  refine ⟨fun a => by simp [film_equals], fun a b h => ?_, fun a b c h1 h2 => ?_⟩
  · simp only [film_equals, decide_eq_true_eq] at h ⊢
    exact h.symm
  · simp only [film_equals, decide_eq_true_eq] at h1 h2 ⊢
    exact h1.trans h2

theorem film_same_name_equivalence : film_equivalence film_same_name := by
  refine ⟨fun a => by simp [film_same_name], fun a b h => ?_, fun a b c h1 h2 => ?_⟩
  · simp only [film_same_name, decide_eq_true_eq] at h ⊢
    exact h.symm
  · simp only [film_same_name, decide_eq_true_eq] at h1 h2 ⊢
    exact h1.trans h2

theorem mem_all_films (elems : List tSubscription) (f : tFilm) :
    f ∈ all_films elems ↔ ∃ e ∈ elems, f ∈ e.watchlist.top := by
  induction elems with
  | nil => simp [all_films]
  | cons e rest ih => simp [all_films, ih]

theorem all_films_eq_nil (elems : List tSubscription) :
    all_films elems = [] ↔ ∀ e ∈ elems, e.watchlist.top = [] := by
  induction elems with
  | nil => simp [all_films]
  | cons e rest ih => simp [all_films, ih]

/-- The selection of `popularFilm_find`: with a comparison of films that is an
equivalence relation, at most 10 distinct films and at least one film in the
watchlists, the answer is the copy of the name of an entry of the working set
left by the scan whose counter is maximal; among the entries with that counter
none has a newer release date, and every earlier entry with that counter has a
strictly older one (so the first-seen entry wins a tie on counter and date).  The
answer is undefined when the name of that entry is `NULL`.  With "A" (2020) twice
and "B" (2023) once the answer is "A"; with "A" and "B" once each it is "B". -/
theorem popularFilm_find_selects (equals : tFilm → tFilm → Bool) (data : tSubscriptions)
    (heq : film_equivalence equals)
    (hten : (distinct_films equals (all_films data.elems)).length ≤ 10)
    (hne : all_films data.elems ≠ []) :
    (∃ (unique : List (tFilm × Int)) (m : Nat) (film : tFilm) (count : Int),
      popularFilm_find_scan equals data.elems [] = some unique ∧
      unique[m]? = some (film, count) ∧
      popularFilm_find equals data = film.name.map some ∧
      (∀ x ∈ unique, x.2 ≤ count) ∧
      (∀ x ∈ unique, x.2 = count → date_cmp x.1.release film.release ≤ 0) ∧
      (∀ (j : Nat) (x : tFilm × Int), j < m → unique[j]? = some x → x.2 = count →
        date_cmp x.1.release film.release < 0)) ∧
    popularFilm_find film_equals data_PQR = some (some "A") ∧
    popularFilm_find film_equals data_PQ = some (some "B") := by
  refine ⟨?_, by decide, by decide⟩
  obtain ⟨unique, hscan, hinv⟩ := popularFilm_find_scan_inv equals heq data hten
  obtain ⟨_, _, I3, I4, _, _⟩ := hinv
  have hune : unique ≠ [] := by
    obtain ⟨g, hg⟩ := List.exists_mem_of_ne_nil _ hne
    obtain ⟨x, hx, _⟩ := I4 g hg
    exact List.ne_nil_of_mem hx
  have hcount : data.count ≠ 0 := by
    intro h0
    have : data.elems = [] := by
      simp only [tSubscriptions.count] at h0
      exact List.length_eq_zero.mp (by exact_mod_cast h0)
    rw [this] at hne
    exact hne rfl
  obtain ⟨m, film, count, hget, hres, hsel⟩ :=
    popularFilm_find_answer equals data unique hscan hune hcount
  refine ⟨unique, m, film, count, hscan, hget, hres, ?_, ?_, ?_⟩
  · intro x hx
    obtain ⟨j, hj⟩ := List.getElem?_of_mem hx
    have hjl : j < unique.length := by
      by_contra hc
      rw [List.getElem?_eq_none (by omega)] at hj
      exact absurd hj (by simp)
    exact (hsel j x (film, count) hjl hj hget).1
  · intro x hx
    obtain ⟨j, hj⟩ := List.getElem?_of_mem hx
    have hjl : j < unique.length := by
      by_contra hc
      rw [List.getElem?_eq_none (by omega)] at hj
      exact absurd hj (by simp)
    exact (hsel j x (film, count) hjl hj hget).2.1
  · intro j x hjm hj
    have hml : m < unique.length := by
      by_contra hc
      rw [List.getElem?_eq_none (by omega)] at hget
      exact absurd hget (by simp)
    exact (hsel j x (film, count) (by omega) hj hget).2.2 hjm

/-- C11, where the code departs from it: in the table of the single subscription
`sub_N`, whose watchlist holds one film with a `NULL` name, the scan leaves that
film as the only entry of the working set, with counter 1, the selection keeps
index 0, and `popularFilm_find` has no defined answer, whatever `film_equals`
is: it calls `strdup` on the `NULL` name instead of returning a name. -/
theorem popularFilm_find_null_name_selected (equals : tFilm → tFilm → Bool) :
    popularFilm_find_scan equals data_N.elems [] = some [(film_null, 1)] ∧
      popularFilm_find_select [(film_null, 1)] 0 1 0 = 0 ∧
      film_null.name = none ∧
      (distinct_films equals (all_films data_N.elems)).length ≤ 10 ∧
      popularFilm_find equals data_N = none :=
  ⟨rfl, rfl, rfl, Nat.le_of_ble_eq_true rfl, rfl⟩

/-- When `popularFilm_find` answers `NULL`: with a comparison of films that is an
equivalence relation and at most 10 distinct films, exactly when the table is
empty or every watchlist is empty; otherwise the answer is the copy of the name
of a film of some subscription's watchlist, undefined when that name is
`NULL`. -/
theorem popularFilm_find_null_iff (equals : tFilm → tFilm → Bool) (data : tSubscriptions)
    (heq : film_equivalence equals)
    (hten : (distinct_films equals (all_films data.elems)).length ≤ 10) :
    (popularFilm_find equals data = some none ↔
      (data.count = 0 ∨ ∀ e ∈ data.elems, e.watchlist.top = [])) ∧
    (¬ (data.count = 0 ∨ ∀ e ∈ data.elems, e.watchlist.top = []) →
      ∃ e ∈ data.elems, ∃ film ∈ e.watchlist.top,
        popularFilm_find equals data = film.name.map some) := by
  have hcount_nil : data.count = 0 → data.elems = [] := by
    intro h0
    simp only [tSubscriptions.count] at h0
    exact List.length_eq_zero.mp (by exact_mod_cast h0)
  by_cases hfilms : all_films data.elems = []
  · have hall : ∀ e ∈ data.elems, e.watchlist.top = [] := (all_films_eq_nil _).mp hfilms
    have hres : popularFilm_find equals data = some none := by
      unfold popularFilm_find
      by_cases h0 : data.count = 0
      · rw [if_pos h0]
      · rw [if_neg h0, popularFilm_find_scan_eq, hfilms]
        simp [popularFilm_find_stack]
    exact ⟨⟨fun _ => Or.inr hall, fun _ => hres⟩, fun h => absurd (Or.inr hall) h⟩
  · obtain ⟨unique, hscan, hinv⟩ := popularFilm_find_scan_inv equals heq data hten
    obtain ⟨_, _, I3, I4, _, _⟩ := hinv
    have hune : unique ≠ [] := by
      obtain ⟨g, hg⟩ := List.exists_mem_of_ne_nil _ hfilms
      obtain ⟨x, hx, _⟩ := I4 g hg
      exact List.ne_nil_of_mem hx
    have hcount : data.count ≠ 0 := by
      intro h0
      rw [hcount_nil h0] at hfilms
      exact hfilms rfl
    obtain ⟨m, film, count, hget, hres, _⟩ :=
      popularFilm_find_answer equals data unique hscan hune hcount
    have hnot : ¬ (data.count = 0 ∨ ∀ e ∈ data.elems, e.watchlist.top = []) := by
      rintro (h | h)
      · exact hcount h
      · exact hfilms ((all_films_eq_nil _).mpr h)
    refine ⟨⟨fun h => ?_, fun h => absurd h hnot⟩, fun _ => ?_⟩
    · rw [hres] at h
      cases hname : film.name <;> simp [hname] at h
    · have hmem : film ∈ all_films data.elems := (I3 _ (List.getElem?_mem hget)).1
      obtain ⟨e, he, hfe⟩ := (mem_all_films _ _).mp hmem
      exact ⟨e, he, film, hfe, hres⟩

/-- C19: with a comparison of films that is an equivalence relation and at most
10 distinct films, the scan of `popularFilm_find` ends with a working set whose
films are pairwise different, in which each counter is the number of watchlist
nodes, over all subscriptions, equal to the entry's film, whose counters add up
to the number of watchlist nodes, and in which each stored film is one of those
nodes and no node equal to it has a newer release date. -/
theorem popularFilm_find_working_set (equals : tFilm → tFilm → Bool) (data : tSubscriptions)
    (heq : film_equivalence equals)
    (hten : (distinct_films equals (all_films data.elems)).length ≤ 10) :
    ∃ unique, popularFilm_find_scan equals data.elems [] = some unique ∧
      (∀ (i j : Nat) (x y : tFilm × Int), i ≠ j → unique[i]? = some x → unique[j]? = some y →
        equals x.1 y.1 = false) ∧
      (∀ x ∈ unique, x.2 = occurrences equals x.1 (all_films data.elems)) ∧
      (unique.map Prod.snd).sum = ((all_films data.elems).length : Int) ∧
      (∀ x ∈ unique, x.1 ∈ all_films data.elems ∧
        ∀ g ∈ all_films data.elems, equals x.1 g = true →
          date_cmp g.release x.1.release ≤ 0) := by
  obtain ⟨unique, hscan, I1, I2, I3, _, _, I6⟩ := popularFilm_find_scan_inv equals heq data hten
  refine ⟨unique, hscan, ?_, I2, I6, I3⟩
  rw [List.pairwise_iff_getElem] at I1
  have hsymm := heq.2.1
  intro i j x y hij hx hy
  have hil : i < unique.length := by
    by_contra hc
    rw [List.getElem?_eq_none (by omega)] at hx
    exact absurd hx (by simp)
  have hjl : j < unique.length := by
    by_contra hc
    rw [List.getElem?_eq_none (by omega)] at hy
    exact absurd hy (by simp)
  rw [List.getElem?_eq_getElem hil] at hx
  rw [List.getElem?_eq_getElem hjl] at hy
  cases hx
  cases hy
  rcases Nat.lt_or_gt_of_ne hij with h | h
  · exact I1 i j hil hjl h
  · have := I1 j i hjl hil h
    by_contra hc
    have hc' : equals unique[i].1 unique[j].1 = true := by simpa using hc
    rw [hsymm _ _ hc'] at this
    exact absurd this (by simp)

/-- Witness of C19: films compared by name, "A" (2020) in one watchlist and the
newer "A" on top of "B" in another: the working set holds the newer "A" with
counter 2 and "B" with counter 1. -/
theorem popularFilm_find_working_set_witness :
    popularFilm_find_scan film_same_name data_PS.elems []
        = some [(film_A_new, 2), (film_B, 1)] ∧
    ∃ unique, popularFilm_find_scan film_same_name data_PS.elems [] = some unique ∧
      (∀ (i j : Nat) (x y : tFilm × Int), i ≠ j → unique[i]? = some x → unique[j]? = some y →
        film_same_name x.1 y.1 = false) ∧
      (∀ x ∈ unique, x.2 = occurrences film_same_name x.1 (all_films data_PS.elems)) ∧
      (unique.map Prod.snd).sum = ((all_films data_PS.elems).length : Int) ∧
      (∀ x ∈ unique, x.1 ∈ all_films data_PS.elems ∧
        ∀ g ∈ all_films data_PS.elems, film_same_name x.1 g = true →
          date_cmp g.release x.1.release ≤ 0) :=
  ⟨by decide,
    popularFilm_find_working_set film_same_name data_PS film_same_name_equivalence (by decide)⟩

/-! ## `subscriptions_findByDocument` -/

theorem subscriptions_findByDocument_collect_spec (l temp : List tFilm) :
    subscriptions_findByDocument_collect l temp = temp ++ l.take (1000 - temp.length) := by
  induction l generalizing temp with
  | nil => simp [subscriptions_findByDocument_collect]
  | cons elem next ih =>
    unfold subscriptions_findByDocument_collect
    by_cases h : temp.length < 1000
    · rw [if_pos h, ih]
      have : 1000 - temp.length = (1000 - (temp ++ [elem]).length) + 1 := by
        simp only [List.length_append, List.length_singleton]; omega
      rw [this, List.take_succ_cons]
      simp
    · rw [if_neg h]
      have : 1000 - temp.length = 0 := by omega
      rw [this]
      simp

theorem subscriptions_findByDocument_push_spec (temp : List tFilm) (j : Nat)
    (hj : j ≤ temp.length) (watchlist : tFilmstack) :
    subscriptions_findByDocument_push j temp watchlist
      = { top := temp.take j ++ watchlist.top, count := watchlist.count + j } := by
  induction j generalizing watchlist with
  | zero => simp [subscriptions_findByDocument_push]
  | succ j ih =>
    have hlt : j < temp.length := hj
    rw [subscriptions_findByDocument_push, List.getElem?_eq_getElem hlt]
    simp only
    rw [ih (Nat.le_of_lt hlt)]
    have hnode : ({ name := match temp[j].name with
                      | some name => some name
                      | none => none
                    duration := temp[j].duration, genre := temp[j].genre,
                    release := temp[j].release, rating := temp[j].rating,
                    isFree := temp[j].isFree } : tFilm) = temp[j] := by
      cases h : temp[j] with
      | mk name duration genre release rating isFree => cases name <;> rfl
    simp only [hnode, tFilmstack.mk.injEq]
    constructor
    · rw [← List.take_concat_get temp j hlt, List.concat_eq_append, List.append_assoc]
      rfl
    · push_cast; ring

theorem subscriptions_findByDocument_watchlist (top : List tFilm) :
    subscriptions_findByDocument_push (subscriptions_findByDocument_collect top []).length
        (subscriptions_findByDocument_collect top []) { top := [], count := 0 }
      = { top := top.take 1000, count := ((min top.length 1000 : Nat) : Int) } := by
  rw [subscriptions_findByDocument_push_spec _ _ (Nat.le_refl _)]
  simp [subscriptions_findByDocument_collect_spec, Nat.min_comm]

theorem subscriptions_findByDocument_loop_spec (l : List tSubscription) (document : String)
    (result : List tSubscription) :
    subscriptions_findByDocument_loop l document result
      = result ++ projection_from result.length (l.filter fun e => e.document = document) := by
  induction l generalizing result with
  | nil => simp [subscriptions_findByDocument_loop, projection_from]
  | cons src rest ih =>
    unfold subscriptions_findByDocument_loop
    by_cases h : src.document = document
    · have h0 : strcmp src.document document = 0 := (strcmp_eq_zero _ _).mpr h
      rw [if_pos h0]
      subst h
      simp only [ih, subscriptions_findByDocument_watchlist, List.filter_cons, decide_True,
        if_true, projection_from, List.length_append, List.length_singleton,
        List.append_assoc, List.singleton_append]
      rfl
    · have h0 : ¬ strcmp src.document document = 0 := fun hc => h ((strcmp_eq_zero _ _).mp hc)
      rw [if_neg h0, ih]
      simp [List.filter_cons, h]

theorem subscriptions_findByDocument_eq (data : tSubscriptions) (document : String) :
    subscriptions_findByDocument data (some document)
      = (some ⟨projection_from 0 (data.elems.filter fun e => e.document = document)⟩,
          data) := by
  unfold subscriptions_findByDocument
  simp only
  by_cases h0 : data.count = 0
  · have : data.elems = [] := by
      simp only [tSubscriptions.count] at h0
      exact List.length_eq_zero.mp (by exact_mod_cast h0)
    rw [if_pos h0, this]
    simp [projection_from]
  · rw [if_neg h0]
    simp only [subscriptions_findByDocument_loop_spec, List.length_nil, List.nil_append]
    split
    · rename_i hlen
      rw [List.length_eq_zero.mp hlen]
    · rfl

theorem projection_from_length (k : Nat) (l : List tSubscription) :
    (projection_from k l).length = l.length := by
  induction l generalizing k with
  | nil => rfl
  | cons a l ih => simp [projection_from, ih]

theorem projection_from_getElem? (k : Nat) (l : List tSubscription) (i : Nat) :
    (projection_from k l)[i]? = (l[i]?).map (projection_of (k + i)) := by
  induction l generalizing k i with
  | nil => simp [projection_from]
  | cons a l ih =>
    cases i with
    | zero => simp [projection_from]
    | succ i =>
      have hk : k + 1 + i = k + (i + 1) := by omega
      simp only [projection_from, List.getElem?_cons_succ, ih, hk]

theorem projection_of_wf (i : Nat) (src : tSubscription)
    (hlen : src.watchlist.top.length ≤ 1000) (hwf : wf_stack src.watchlist) :
    (projection_of i src).watchlist = src.watchlist := by
  unfold wf_stack at hwf
  cases src with
  | mk id document start_date end_date plan price numDevices watchlist =>
    cases watchlist with
    | mk top count =>
      simp only at hlen hwf
      simp only [projection_of, tFilmstack.mk.injEq]
      exact ⟨List.take_of_length_le hlen, by rw [hwf, Nat.min_eq_left hlen]⟩

theorem sub_long_filter :
    (([sub_long] : List tSubscription).filter fun e => e.document = "11111111A") = [sub_long] := by
  have h : sub_long.document = "11111111A" := rfl
  simp [List.filter_cons, h]

theorem sub_D_long_filter :
    (([sub_D, sub_long] : List tSubscription).filter fun e => e.document = "11111111A")
      = [sub_long] := by
  have h : sub_long.document = "11111111A" := rfl
  have h' : ¬ sub_D.document = "11111111A" := by decide
  simp [List.filter_cons, h, h']

theorem sub_long_top_length : sub_long.watchlist.top.length = 1001 := by
  show (film_Z :: List.replicate 1000 film_X).length = 1001
  rw [List.length_cons, List.length_replicate]

/-- C13, as stated, fails: the watchlist of `sub_long` holds 1001 films (count
1001); its copy in the result of `subscriptions_findByDocument` holds 1000 films
(count 1000), the walk over the source stopping at 1000 nodes. -/
theorem subscriptions_findByDocument_copies_counterexample :
    (subscriptions_findByDocument { elems := [sub_long] } (some "11111111A")).1
        = some { elems := [projection_of 0 sub_long] } ∧
      sub_long.watchlist.top.length = 1001 ∧ sub_long.watchlist.count = 1001 ∧
      (projection_of 0 sub_long).watchlist.top.length = 1000 ∧
      (projection_of 0 sub_long).watchlist.count = 1000 := by
  refine ⟨?_, sub_long_top_length, rfl, ?_, ?_⟩
  · rw [subscriptions_findByDocument_eq]
    simp only [sub_long_filter, projection_from]
  · simp [projection_of, sub_long_top_length]
  · simp [projection_of, sub_long_top_length]

/-- C13, amended: for a non-null document `subscriptions_findByDocument` returns
a table whose cells are, in the original relative order, copies of exactly the
subscriptions with that document; the copy at position `i` has id `i`, the
source's document, dates, plan, price and number of devices, and a watchlist
holding the top 1000 films of the source (all of them when there are at most
1000) with their number as count, which is the source's watchlist, count
included, when the source holds at most 1000 films and its count is its number
of nodes; the input table is unchanged. -/
theorem subscriptions_findByDocument_copies (data : tSubscriptions) (document : String) :
    ∃ result, subscriptions_findByDocument data (some document) = (some result, data) ∧
      result.elems.length = (data.elems.filter fun e => e.document = document).length ∧
      ∀ (i : Nat) (src : tSubscription),
        (data.elems.filter fun e => e.document = document)[i]? = some src →
        ∃ copy, result.elems[i]? = some copy ∧ copy.id = (i : Int) ∧
          copy.document = src.document ∧ copy.start_date = src.start_date ∧
          copy.end_date = src.end_date ∧ copy.plan = src.plan ∧ copy.price = src.price ∧
          copy.numDevices = src.numDevices ∧
          copy.watchlist.top = src.watchlist.top.take 1000 ∧
          copy.watchlist.count = ((min src.watchlist.top.length 1000 : Nat) : Int) ∧
          (src.watchlist.top.length ≤ 1000 → wf_stack src.watchlist →
            copy.watchlist = src.watchlist) := by
  refine ⟨_, subscriptions_findByDocument_eq data document, projection_from_length _ _, ?_⟩
  intro i src hsrc
  refine ⟨projection_of i src, ?_, rfl, rfl, rfl, rfl, rfl, rfl, rfl, rfl, rfl,
    projection_of_wf i src⟩
  simp only [projection_from_getElem?, hsrc, Option.map_some', Nat.zero_add]

/-- Witness of C13 (amended): the subscriptions of "11111111A" in the table
`sub_A`, `sub_D`, `sub_E`; the second copy has id 1 and the watchlist of
`sub_E`. -/
theorem subscriptions_findByDocument_copies_witness :
    ∃ result copy,
      subscriptions_findByDocument data_ADE (some "11111111A") = (some result, data_ADE) ∧
      result.elems[1]? = some copy ∧ copy.id = 1 ∧ copy.watchlist = sub_E.watchlist := by
  obtain ⟨result, hres, _, hall⟩ := subscriptions_findByDocument_copies data_ADE "11111111A"
  obtain ⟨copy, hc, hid, _, _, _, _, _, _, _, _, hw⟩ := hall 1 sub_E (by decide)
  exact ⟨result, copy, hres, hc, hid, hw (by decide) (by decide)⟩

/-- C14: for a non-null document, when the table is empty or no subscription has
that document, `subscriptions_findByDocument` returns a non-null table with
count 0 and no cells. -/
theorem subscriptions_findByDocument_empty (data : tSubscriptions) (document : String)
    (h : data.count = 0 ∨ ∀ e ∈ data.elems, e.document ≠ document) :
    ∃ result, (subscriptions_findByDocument data (some document)).1 = some result ∧
      result.count = 0 ∧ result.elems = [] := by
  have hfilter : (data.elems.filter fun e => e.document = document) = [] := by
    rw [List.filter_eq_nil_iff]
    rcases h with h | h
    · have : data.elems = [] := by
        simp only [tSubscriptions.count] at h
        exact List.length_eq_zero.mp (by exact_mod_cast h)
      rw [this]; simp
    · intro e he
      simpa using h e he
  refine ⟨{ elems := [] }, ?_, rfl, rfl⟩
  rw [subscriptions_findByDocument_eq, hfilter]
  rfl

/-- Witness of C14: the empty table, and a document that no subscription of
`sub_A`, `sub_D`, `sub_E` has. -/
theorem subscriptions_findByDocument_empty_witness :
    (∃ result, (subscriptions_findByDocument data_empty (some "11111111A")).1 = some result ∧
      result.count = 0 ∧ result.elems = []) ∧
    (∃ result, (subscriptions_findByDocument data_ADE (some "33333333C")).1 = some result ∧
      result.count = 0 ∧ result.elems = []) :=
  ⟨subscriptions_findByDocument_empty data_empty "11111111A" (Or.inl (by decide)),
    subscriptions_findByDocument_empty data_ADE "33333333C" (Or.inr (by decide))⟩

/-- C20: for the subscription at position `i` among those with the document,
whose watchlist has `n` films, the watchlist at position `i` of the result of
`subscriptions_findByDocument` holds the top `min n 1000` films of the source in
the same order, with that number as count; for `n ≤ 1000` and a source whose
count is its number of nodes it is the watchlist `subscription_cpy` produces; for
`n > 1000` it has 1000 films and the films below the 1000th are dropped. -/
theorem subscriptions_findByDocument_keeps_top_films (data : tSubscriptions)
    (document : String) (i : Nat) (src : tSubscription)
    (h : (data.elems.filter fun e => e.document = document)[i]? = some src) :
    ∃ result copy,
      (subscriptions_findByDocument data (some document)).1 = some result ∧
      result.elems[i]? = some copy ∧
      copy.watchlist.top = src.watchlist.top.take (min src.watchlist.top.length 1000) ∧
      copy.watchlist.count = ((min src.watchlist.top.length 1000 : Nat) : Int) ∧
      (src.watchlist.top.length ≤ 1000 → wf_stack src.watchlist →
        ∀ destination, ∃ c, subscription_cpy destination src = some c ∧
          c.watchlist = copy.watchlist) ∧
      (1000 < src.watchlist.top.length →
        copy.watchlist.top.length = 1000 ∧
        src.watchlist.top = copy.watchlist.top ++ src.watchlist.top.drop 1000 ∧
        src.watchlist.top.drop 1000 ≠ []) := by
  refine ⟨_, projection_of i src, by rw [subscriptions_findByDocument_eq], ?_, ?_, rfl, ?_, ?_⟩
  · simp only [projection_from_getElem?, h, Option.map_some', Nat.zero_add]
  · show src.watchlist.top.take 1000 = _
    by_cases hn : src.watchlist.top.length ≤ 1000
    · rw [Nat.min_eq_left hn, List.take_of_length_le hn, List.take_of_length_le (Nat.le_refl _)]
    · rw [Nat.min_eq_right (by omega)]
  · intro hn hwf destination
    exact ⟨src, subscription_cpy_wf destination src hwf, (projection_of_wf i src hn hwf).symm⟩
  · intro hn
    refine ⟨?_, ?_, ?_⟩
    · show (src.watchlist.top.take 1000).length = 1000
      rw [List.length_take]; omega
    · show src.watchlist.top = src.watchlist.top.take 1000 ++ _
      rw [List.take_append_drop]
    · intro hnil
      have := congrArg List.length hnil
      rw [List.length_drop] at this
      simp at this
      omega

/-- Witness of C20: `sub_E` (3 films) is copied like `subscription_cpy` does;
`sub_long` (1001 films) loses its last film. -/
theorem subscriptions_findByDocument_keeps_top_films_witness :
    (∃ result copy,
      (subscriptions_findByDocument data_ADE (some "11111111A")).1 = some result ∧
      result.elems[1]? = some copy ∧
      ∃ c, subscription_cpy sub_D sub_E = some c ∧ c.watchlist = copy.watchlist) ∧
    (∃ result copy,
      (subscriptions_findByDocument { elems := [sub_D, sub_long] } (some "11111111A")).1
        = some result ∧
      result.elems[0]? = some copy ∧ copy.watchlist.top.length = 1000 ∧
      sub_long.watchlist.top.drop 1000 ≠ []) := by
  constructor
  · obtain ⟨result, copy, hres, hc, _, _, hcpy, _⟩ :=
      subscriptions_findByDocument_keeps_top_films data_ADE "11111111A" 1 sub_E (by decide)
    exact ⟨result, copy, hres, hc, hcpy (by decide) (by decide) sub_D⟩
  · obtain ⟨result, copy, hres, hc, _, _, _, hdrop⟩ :=
      subscriptions_findByDocument_keeps_top_films { elems := [sub_D, sub_long] }
        "11111111A" 0 sub_long (by rw [sub_D_long_filter]; rfl)
    have hlong := hdrop (by rw [sub_long_top_length]; omega)
    exact ⟨result, copy, hres, hc, hlong.1, hlong.2.2⟩

/-! ## `subscriptions_findHash` and `subscriptions_find` -/

theorem subscriptions_findHash_cases (data : tSubscriptions) (id : Int) :
    ((1 ≤ id ∧ id ≤ data.count) →
      ∃ elem, data.elems[(id - 1).toNat]? = some elem ∧
        subscriptions_findHash data id = some (some elem)) ∧
    (¬ (1 ≤ id ∧ id ≤ data.count) → subscriptions_findHash data id = some none) := by
  constructor
  · rintro ⟨h1, h2⟩
    have hlt : (id - 1).toNat < data.elems.length := by
      simp only [tSubscriptions.count] at h2; omega
    refine ⟨data.elems[(id - 1).toNat], List.getElem?_eq_getElem hlt, ?_⟩
    unfold subscriptions_findHash
    rw [if_neg (by omega), List.getElem?_eq_getElem hlt]
  · intro h
    unfold subscriptions_findHash
    rw [if_pos (by omega)]

/-- C16: `subscriptions_findHash` returns the cell at position `id - 1` when
`1 ≤ id ≤ count` and `NULL` otherwise; it never reads outside the table. -/
theorem subscriptions_findHash_spec (data : tSubscriptions) (id : Int) :
    ((1 ≤ id ∧ id ≤ data.count) →
      ∃ elem, data.elems[(id - 1).toNat]? = some elem ∧
        subscriptions_findHash data id = some (some elem)) ∧
    (¬ (1 ≤ id ∧ id ≤ data.count) → subscriptions_findHash data id = some none) ∧
    subscriptions_findHash data id ≠ none := by
  obtain ⟨hin, hout⟩ := subscriptions_findHash_cases data id
  refine ⟨hin, hout, ?_⟩
  by_cases h : 1 ≤ id ∧ id ≤ data.count
  · obtain ⟨elem, _, he⟩ := hin h
    rw [he]
    exact fun hc => absurd hc (by simp)
  · rw [hout h]
    exact fun hc => absurd hc (by simp)

/-- Witness of C16: in the table of three cells id 3 gives the third cell and id
4 gives `NULL`. -/
theorem subscriptions_findHash_spec_witness :
    (∃ elem, data_PQR.elems[((3 : Int) - 1).toNat]? = some elem ∧
      subscriptions_findHash data_PQR 3 = some (some elem)) ∧
    subscriptions_findHash data_PQR 4 = some none :=
  ⟨(subscriptions_findHash_spec data_PQR 3).1 (by decide),
    (subscriptions_findHash_spec data_PQR 4).2.1 (by decide)⟩

/-- C17: `subscriptions_find` returns the smallest index whose cell has the
given id, an index below the count, when some cell has it; it returns -1 exactly
when no cell has it. -/
theorem subscriptions_find_spec (data : tSubscriptions) (id : Int) :
    ((∃ e ∈ data.elems, e.id = id) →
      ∃ k : Nat, subscriptions_find data id = (k : Int) ∧ (k : Int) < data.count ∧
        (∃ e, data.elems[k]? = some e ∧ e.id = id) ∧
        ∀ j, j < k → ∀ e, data.elems[j]? = some e → e.id ≠ id) ∧
    (subscriptions_find data id = -1 ↔ ∀ e ∈ data.elems, e.id ≠ id) := by
  constructor
  · intro hex
    obtain ⟨k, hk, hlt, hat, hmin⟩ := subscriptions_find_from_some data.elems id 0 hex
    simp only [Nat.zero_add] at hk
    exact ⟨k, hk, by simp only [tSubscriptions.count]; exact_mod_cast hlt, hat, hmin⟩
  · constructor
    · intro h
      exact (subscriptions_find_neg_iff data id).mp (by rw [h]; decide)
    · intro h
      exact subscriptions_find_from_none data.elems id 0 h

/-- Witness of C17: `sub_A` and `sub_C` both carry id 1; the search answers the
first position. -/
theorem subscriptions_find_spec_witness :
    ∃ k : Nat, subscriptions_find { elems := [sub_D, sub_A, sub_C] } 1 = (k : Int) ∧
      (k : Int) < ({ elems := [sub_D, sub_A, sub_C] } : tSubscriptions).count ∧
      (∃ e, ([sub_D, sub_A, sub_C] : List tSubscription)[k]? = some e ∧ e.id = 1) ∧
      ∀ j, j < k → ∀ e, ([sub_D, sub_A, sub_C] : List tSubscription)[j]? = some e → e.id ≠ 1 :=
  (subscriptions_find_spec { elems := [sub_D, sub_A, sub_C] } 1).1 (by decide)

/-- C15: on a table whose ids are the dense 1-based sequence of the positions,
`subscriptions_findHash` returns a cell exactly when `subscriptions_find` returns
a non-negative index, and the cell returned is the one at that index, with the
id asked for. -/
theorem subscriptions_findHash_agrees_with_find (data : tSubscriptions) (id : Int)
    (hdense : dense_ids data) :
    ((∃ elem, subscriptions_findHash data id = some (some elem)) ↔
        0 ≤ subscriptions_find data id) ∧
    (∀ elem, subscriptions_findHash data id = some (some elem) →
        data.elems[(subscriptions_find data id).toNat]? = some elem ∧ elem.id = id) ∧
    subscriptions_findHash data id ≠ none := by
  obtain ⟨hin, hout⟩ := subscriptions_findHash_cases data id
  have hdef : subscriptions_findHash data id ≠ none := by
    by_cases h : 1 ≤ id ∧ id ≤ data.count
    · obtain ⟨elem, _, he⟩ := hin h
      rw [he]
      exact fun hc => absurd hc (by simp)
    · rw [hout h]
      exact fun hc => absurd hc (by simp)
  by_cases h : 1 ≤ id ∧ id ≤ data.count
  · obtain ⟨elem, hget, hres⟩ := hin h
    have hid : elem.id = id := by
      rw [hdense _ elem hget]
      omega
    obtain ⟨k, hk0, _, ⟨e, hek, heid⟩, _⟩ :=
      subscriptions_find_from_some data.elems id 0 ⟨elem, List.getElem?_mem hget, hid⟩
    have hk : subscriptions_find data id = (k : Int) := by
      unfold subscriptions_find
      rw [hk0, Nat.zero_add]
    have hkid : (k : Int) = id - 1 := by
      have := hdense k e hek
      omega
    refine ⟨⟨fun _ => by rw [hk]; omega, fun _ => ⟨elem, hres⟩⟩, ?_, hdef⟩
    intro x hx
    rw [hres] at hx
    simp only [Option.some.injEq] at hx
    subst hx
    refine ⟨?_, hid⟩
    rw [hk, hkid]
    exact hget
  · have hres := hout h
    have hnone : ∀ e ∈ data.elems, e.id ≠ id := by
      intro e he heid
      obtain ⟨j, hj⟩ := List.getElem?_of_mem he
      have hjl : j < data.elems.length := by
        by_contra hc
        rw [List.getElem?_eq_none (by omega)] at hj
        exact absurd hj (by simp)
      have := hdense j e hj
      simp only [tSubscriptions.count] at h
      omega
    have hfind : subscriptions_find data id < 0 := (subscriptions_find_neg_iff data id).mpr hnone
    refine ⟨⟨?_, fun h0 => absurd h0 (by omega)⟩, ?_, hdef⟩
    · rintro ⟨elem, he⟩
      rw [hres] at he
      exact absurd he (by simp)
    · intro elem he
      rw [hres] at he
      exact absurd he (by simp)

theorem dense_ids_data_PQR : dense_ids data_PQR := by
  intro i e h
  rcases i with _ | _ | _ | i
  · simp only [data_PQR, List.getElem?_cons_zero, Option.some.injEq] at h
    subst h; rfl
  · simp only [data_PQR, List.getElem?_cons_succ, List.getElem?_cons_zero,
      Option.some.injEq] at h
    subst h; rfl
  · simp only [data_PQR, List.getElem?_cons_succ, List.getElem?_cons_zero,
      Option.some.injEq] at h
    subst h; rfl
  · simp [data_PQR] at h

/-- Witness of C15: the table of three cells with ids 1, 2, 3; id 2 is found by
both searches, at index 1. -/
theorem subscriptions_findHash_agrees_with_find_witness :
    subscriptions_find data_PQR 2 = 1 ∧
    ((∃ elem, subscriptions_findHash data_PQR 2 = some (some elem)) ↔
        0 ≤ subscriptions_find data_PQR 2) ∧
    (∀ elem, subscriptions_findHash data_PQR 2 = some (some elem) →
        data_PQR.elems[(subscriptions_find data_PQR 2).toNat]? = some elem ∧ elem.id = 2) :=
  ⟨by decide,
    (subscriptions_findHash_agrees_with_find data_PQR 2 dense_ids_data_PQR).1,
    (subscriptions_findHash_agrees_with_find data_PQR 2 dense_ids_data_PQR).2.1⟩

/-! ## The table holds no two equal subscriptions -/

theorem identity_key_eq_iff (a b : tSubscription) :
    identity_key a = identity_key b ↔ subscription_equal a b = true := by
  rw [subscription_equal_iff]
  unfold identity_key same_identity
  simp only [Prod.mk.injEq]

theorem no_duplicates_iff_nodup (data : tSubscriptions) :
    no_duplicates data ↔ (data.elems.map identity_key).Nodup := by
  rw [List.nodup_iff_getElem?_ne_getElem?]
  constructor
  · intro h i j hij hj heq
    simp only [List.length_map] at hj
    have hi : i < data.elems.length := by omega
    simp only [List.getElem?_map, List.getElem?_eq_getElem hi, List.getElem?_eq_getElem hj,
      Option.map_some', Option.some.injEq] at heq
    have := h i j _ _ (by omega) (List.getElem?_eq_getElem hi) (List.getElem?_eq_getElem hj)
    rw [(identity_key_eq_iff _ _).mp heq] at this
    exact absurd this (by simp)
  · intro h i j a b hij ha hb
    by_contra hc
    have hc' : subscription_equal a b = true := by simpa using hc
    have hkey : identity_key a = identity_key b := (identity_key_eq_iff a b).mpr hc'
    have hil : i < data.elems.length := by
      by_contra hn
      rw [List.getElem?_eq_none (by omega)] at ha
      exact absurd ha (by simp)
    have hjl : j < data.elems.length := by
      by_contra hn
      rw [List.getElem?_eq_none (by omega)] at hb
      exact absurd hb (by simp)
    rcases Nat.lt_or_gt_of_ne hij with hlt | hgt
    · refine h i j hlt (by simpa using hjl) ?_
      simp only [List.getElem?_map, ha, hb, Option.map_some', hkey]
    · refine h j i hgt (by simpa using hil) ?_
      simp only [List.getElem?_map, ha, hb, Option.map_some', hkey]

theorem subscriptions_del_shift_keys (rounds i : Nat) (elems out : List tSubscription)
    (hlen : i + rounds + 1 = elems.length)
    (h : subscriptions_del_shift rounds i elems = some out) :
    out.length = elems.length ∧
      (out.take (elems.length - 1)).map identity_key = (elems.map identity_key).eraseIdx i := by
  induction rounds generalizing i elems with
  | zero =>
    simp only [subscriptions_del_shift, Option.some.injEq] at h
    subst h
    refine ⟨rfl, ?_⟩
    have hi : elems.length - 1 = i := by omega
    rw [hi, List.eraseIdx_eq_take_drop_succ, List.drop_of_length_le (by simp; omega)]
    simp
  | succ rounds ih =>
    have h0 : i < elems.length := by omega
    have h1 : i + 1 < elems.length := by omega
    rw [subscriptions_del_shift, List.getElem?_eq_getElem h0, List.getElem?_eq_getElem h1] at h
    simp only at h
    cases hc : subscription_cpy
        { elems[i] with watchlist := filmstack_free elems[i].watchlist } elems[i + 1] with
    | none => simp [hc] at h
    | some cell =>
      simp only [hc] at h
      obtain ⟨hl, ht⟩ := ih (i + 1) (elems.set i cell) (by simp only [List.length_set]; omega) h
      have hkey : identity_key cell = identity_key elems[i + 1] := by
        have := (subscription_cpy_fields _ _ _ hc).2
        unfold same_identity at this
        unfold identity_key
        simp only [Prod.mk.injEq]
        exact this
      refine ⟨by simpa using hl, ?_⟩
      simp only [List.length_set] at ht
      rw [ht, List.map_set, hkey]
      apply set_next_eraseIdx
      simp [List.getElem?_eq_getElem h1]

/-- Whatever the watchlists, the identity fields of the cells left by a defined
`subscriptions_del` are a sublist of those of the cells it received. -/
theorem subscriptions_del_keys (c c' : tSubscriptions) (id : Int) (err : tApiError)
    (h : subscriptions_del c id = some (err, c')) :
    (c'.elems.map identity_key).Sublist (c.elems.map identity_key) := by
  unfold subscriptions_del at h
  simp only at h
  by_cases hneg : subscriptions_find c id < 0
  · rw [if_pos hneg] at h
    simp only [Option.some.injEq, Prod.mk.injEq] at h
    rw [← h.2]
  · rw [if_neg hneg] at h
    have hex : ∃ e ∈ c.elems, e.id = id := by
      by_contra hno
      exact hneg ((subscriptions_find_neg_iff c id).mpr
        (fun e he heid => hno ⟨e, he, heid⟩))
    obtain ⟨k, hk, hlt, _, _⟩ := subscriptions_find_from_some c.elems id 0 hex
    simp only [Nat.zero_add] at hk
    have hfind : subscriptions_find c id = (k : Int) := hk
    have hrounds : (c.count - 1 - (k : Int)).toNat = c.elems.length - 1 - k := by
      simp only [tSubscriptions.count]; omega
    have hcnt : (c.count - 1).toNat = c.elems.length - 1 := by
      simp only [tSubscriptions.count]; omega
    rw [hfind, hrounds, Int.toNat_ofNat] at h
    cases hs : subscriptions_del_shift (c.elems.length - 1 - k) k c.elems with
    | none => simp [hs] at h
    | some out =>
      obtain ⟨hl, ht⟩ := subscriptions_del_shift_keys _ _ _ _ (by omega) hs
      simp only [hs, hcnt] at h
      by_cases hpos : c.count - 1 > 0
      · rw [if_pos hpos] at h
        simp only [Option.some.injEq, Prod.mk.injEq] at h
        rw [← h.2]
        simp only
        rw [List.take_modify, List.modify_eq_self (by rw [List.length_take]; omega), ht]
        exact List.eraseIdx_sublist _ _
      · rw [if_neg hpos] at h
        simp only [subscriptions_free, subscriptions_init, Option.some.injEq,
          Prod.mk.injEq] at h
        rw [← h.2]
        simp

/-- C18: "no two cells at distinct positions are `subscription_equal`" is an
invariant of the table: it holds after `subscriptions_init`; when it holds before
a call of `subscriptions_add` or of `subscriptions_del`, whatever the result code,
it holds for the table the call leaves; and the calls do leave a table when the
watchlists involved satisfy the count invariant of the data model. -/
theorem no_duplicates_invariant :
    (∀ data, no_duplicates (subscriptions_init data).2) ∧
    (∀ c p s err c', no_duplicates c → subscriptions_add c p s = some (err, c') →
      no_duplicates c') ∧
    (∀ c id err c', no_duplicates c → subscriptions_del c id = some (err, c') →
      no_duplicates c') ∧
    (∀ c p s, wf_stack s.watchlist → ∃ out, subscriptions_add c p s = some out) ∧
    (∀ c id, (∀ e ∈ c.elems, wf_stack e.watchlist) →
      ∃ out, subscriptions_del c id = some out) := by
  refine ⟨?_, ?_, ?_, ?_, ?_⟩
  · intro data
    rw [no_duplicates_iff_nodup]
    simp [subscriptions_init]
  · intro c p s err c' hc hadd
    unfold subscriptions_add at hadd
    by_cases hs : subscriptions_add_scan c.elems s = true
    · rw [if_pos hs] at hadd
      simp only [Option.some.injEq, Prod.mk.injEq] at hadd
      rw [← hadd.2]; exact hc
    · by_cases hp : people_find p s.document < 0
      · rw [if_neg hs, if_pos hp] at hadd
        simp only [Option.some.injEq, Prod.mk.injEq] at hadd
        rw [← hadd.2]; exact hc
      · rw [if_neg hs, if_neg hp] at hadd
        cases he : subscription_cpy default s with
        | none => simp [he] at hadd
        | some e =>
          simp only [he, Option.some.injEq, Prod.mk.injEq] at hadd
          rw [← hadd.2]
          rw [no_duplicates_iff_nodup] at hc ⊢
          simp only [List.map_append, List.map_cons, List.map_nil]
          rw [List.nodup_append]
          refine ⟨hc, by simp, ?_⟩
          rw [List.disjoint_singleton]
          intro hmem
          obtain ⟨x, hx, hkey⟩ := List.mem_map.mp hmem
          have hxe : subscription_equal x e = true := (identity_key_eq_iff x e).mp hkey
          have hes : same_identity e s := (subscription_cpy_fields default s e he).2
          have hxs : subscription_equal x s = true := by
            rw [subscription_equal_iff] at hxe ⊢
            unfold same_identity at hxe hes ⊢
            obtain ⟨a1, a2, a3, a4, a5, a6⟩ := hxe
            obtain ⟨b1, b2, b3, b4, b5, b6⟩ := hes
            exact ⟨a1.trans b1, a2.trans b2, a3.trans b3, a4.trans b4, a5.trans b5,
              a6.trans b6⟩
          exact hs ((subscriptions_add_scan_iff c.elems s).mpr ⟨x, hx, hxs⟩)
  · intro c id err c' hc hdel
    rw [no_duplicates_iff_nodup] at hc ⊢
    exact List.Nodup.sublist (subscriptions_del_keys c c' id err hdel) hc
  · intro c p s hwf
    unfold subscriptions_add
    split
    · exact ⟨_, rfl⟩
    · split
      · exact ⟨_, rfl⟩
      · rw [subscription_cpy_wf default s hwf]
        exact ⟨_, rfl⟩
  · intro c id hwf
    obtain ⟨err, c', hdel, _⟩ := subscriptions_del_keeps_wf c id hwf
    exact ⟨_, hdel⟩

/-- Witness of C18: the table holding `sub_A` has no two equal cells; it keeps
the property when `sub_C` is added and when id 1 is deleted afterwards. -/
theorem no_duplicates_invariant_witness :
    no_duplicates data_A ∧ no_duplicates { elems := [sub_A, sub_C] } ∧
      no_duplicates { elems := [sub_C] } := by
  have h0 : no_duplicates data_A := (no_duplicates_iff_nodup data_A).mpr (by decide)
  have h1 : no_duplicates { elems := [sub_A, sub_C] } :=
    no_duplicates_invariant.2.1 data_A people_AB sub_C E_SUCCESS _ h0 (by decide)
  have h2 : no_duplicates { elems := [sub_C] } :=
    no_duplicates_invariant.2.2.1 { elems := [sub_A, sub_C] } 1 E_SUCCESS _ h1 (by decide)
  exact ⟨h0, h1, h2⟩

end UOCPlay
